import Mathlib

/-!
Verification development for the clarity-proxy service
(`src/server.js`, `src/unnamed/part_000`).

The JavaScript source is shallowly embedded:
* JS values occurring in analytics rows are the inductive `JSVal`;
  JS numbers are modelled as exact rationals (`ℚ`) plus explicit
  non-finite markers (`JSNum.nan`, `.inf`, `.ninf`).
* The WHATWG `new URL(...)` parser is modelled by `parseURLCore` for the
  fragment the service exercises: absolute URLs of the shape
  `scheme://host[:port]path?query#fragment`.  The model keeps the raw
  path slice as `pathname` (the real parser re-encodes some characters,
  which the subsequent `decodeURI` undoes again; the composed behaviour
  agrees).  Userinfo (`@`), backslash-as-slash and `.`/`..` segment
  resolution are outside the modelled fragment.
* `decodeURI` is modelled by `decodeCore` (single-byte escapes; escapes
  of the reserved characters `;/?:@&=+$,#` are kept verbatim, malformed
  or multi-byte escapes make it fail, mirrored by `Option`).
* The in-memory `Map` cache is an association list; `Date.now()` is an
  explicit `now : ℕ` argument; the upstream `fetch` (+ `resp.json()`)
  outcome is an explicit `Except String Payload` argument, and each
  cache-reading function additionally reports whether the upstream call
  was reached (`Bool`), which instruments the side effect.
-/

set_option maxRecDepth 2000

/-- ASCII letter test used by the scheme grammar of the URL model. -/
def asciiAlpha (c : Char) : Bool :=
  ('a' ≤ c ∧ c ≤ 'z') ∨ ('A' ≤ c ∧ c ≤ 'Z')

/-- ASCII digit test. -/
def asciiDigit (c : Char) : Bool :=
  '0' ≤ c ∧ c ≤ '9'

/-- Hexadecimal digit test (for percent-escapes and `0x` literals). -/
def hexDigit (c : Char) : Bool :=
  asciiDigit c ∨ ('a' ≤ c ∧ c ≤ 'f') ∨ ('A' ≤ c ∧ c ≤ 'F')

/-- Numeric value of a hexadecimal digit. -/
def hexVal (c : Char) : ℕ :=
  if asciiDigit c then c.toNat - 48
  else if 'a' ≤ c ∧ c ≤ 'f' then c.toNat - 87
  else c.toNat - 55

/-- Whitespace in the sense of JavaScript's `trim` (ASCII whitespace
plus NBSP and the BOM, the cases relevant to the service). -/
def jsWs (c : Char) : Bool :=
  c = ' ' ∨ c = '\t' ∨ c = '\n' ∨ c = '\r' ∨ c.toNat = 0x0B ∨ c.toNat = 0x0C ∨
  c.toNat = 0xA0 ∨ c.toNat = 0xFEFF

/-- JS `String.prototype.trim`: drop whitespace from both ends. -/
def trimChars (l : List Char) : List Char :=
  ((l.dropWhile jsWs).reverse.dropWhile jsWs).reverse

/-- String-level wrapper of `trimChars`. -/
def jsTrim (s : String) : String :=
  String.mk (trimChars s.data)

/-- Characters whose percent-escapes `decodeURI` leaves untouched
(the URI reserved set plus `#`). -/
def uriReserved (c : Char) : Bool :=
  c = ';' ∨ c = '/' ∨ c = '?' ∨ c = ':' ∨ c = '@' ∨ c = '&' ∨ c = '=' ∨
  c = '+' ∨ c = '$' ∨ c = ',' ∨ c = '#'

/-- Model of `decodeURI` on its single-byte fragment: decodes `%XX`
escapes below `0x80`, keeps escapes of reserved characters verbatim,
fails (`none`, the model of a thrown `URIError`) on malformed escapes.
Escapes at `0x80` and above are outside the modelled fragment: the
real `decodeURI` decodes a valid multi-byte UTF-8 escape sequence such
as `%C3%A9` and throws only on invalid ones, whereas this model maps
every such escape to `none`.  Every theorem below that quantifies over
escaped paths therefore restricts its domain to single-byte escapes
(`escapesOk`), where model and program agree; concrete evaluations use
only such escapes. -/
def decodeCore : List Char → Option (List Char)
  | [] => some []
  | c :: rest =>
    if c = '%' then
      match rest with
      | a :: b :: rest2 =>
        if hexDigit a ∧ hexDigit b then
          let v := hexVal a * 16 + hexVal b
          if 0x80 ≤ v then none
          else if uriReserved (Char.ofNat v) then
            (fun d => '%' :: a :: b :: d) <$> decodeCore rest2
          else
            (fun d => Char.ofNat v :: d) <$> decodeCore rest2
        else none
      | _ => none
    else (fun d => c :: d) <$> decodeCore rest

/-- `try { path = decodeURI(path) } catch {}` — decode, keeping the raw
path when decoding fails. -/
def decodeD (l : List Char) : List Char :=
  match decodeCore l with
  | some d => d
  | none => l

/-- Conservative URL path alphabet: ASCII letters, digits, and the
path code points that the WHATWG serializer never percent-encodes and
the parser never rewrites.  Excludes `%`, `\`, `?`, `#`, whitespace
and the whole path percent-encode set. -/
def safePathChar (c : Char) : Bool :=
  asciiAlpha c ∨ asciiDigit c ∨
  c = '-' ∨ c = '_' ∨ c = '~' ∨ c = '!' ∨ c = '$' ∨ c = '&' ∨ c = '(' ∨ c = ')' ∨
  c = '*' ∨ c = '+' ∨ c = ',' ∨ c = ';' ∨ c = '=' ∨ c = ':' ∨ c = '@' ∨ c = '/' ∨ c = '.'

/-- No `.`-led path segment: bans the substring `/.` and with it the
dot segments `.` and `..` that the real parser removes. -/
def noDotSeg : List Char → Bool
  | [] => true
  | [_] => true
  | a :: b :: rest => !(a = '/' ∧ b = '.') && noDotSeg (b :: rest)

/-- Percent-escapes of a path are well formed, single-byte (below
`0x80`, inside `decodeCore`'s faithful fragment) and do not encode a
dot (the real parser treats `%2e` path segments as dot segments). -/
def escapesOk : List Char → Bool
  | [] => true
  | c :: rest =>
    if c = '%' then
      match rest with
      | a :: b :: rest2 =>
        hexDigit a && hexDigit b && decide (hexVal a * 16 + hexVal b < 128) &&
        !(hexVal a * 16 + hexVal b == 46) && escapesOk rest2
      | _ => false
    else escapesOk rest

/-- Split a character list at its first `':'` (scheme separator search
of the URL model); `none` when there is no colon. -/
def splitAtColon : List Char → Option (List Char × List Char)
  | [] => none
  | c :: r =>
    if c = ':' then some ([], r)
    else (fun p => (c :: p.1, p.2)) <$> splitAtColon r

/-- URL scheme grammar: a letter followed by letters, digits, `+`, `-`,
`.`. -/
def schemeOk (l : List Char) : Bool :=
  match l with
  | [] => false
  | c :: r => asciiAlpha c ∧ r.all (fun d => asciiAlpha d ∨ asciiDigit d ∨ d = '+' ∨ d = '-' ∨ d = '.')

/-- Forbidden host code points (WHATWG forbidden domain code points:
controls, space, DEL, and the listed punctuation). -/
def forbiddenHostChar (c : Char) : Bool :=
  c.toNat ≤ 0x20 ∨ c.toNat = 0x7F ∨
  c = '#' ∨ c = '%' ∨ c = '/' ∨ c = ':' ∨ c = '<' ∨ c = '>' ∨ c = '?' ∨
  c = '@' ∨ c = '[' ∨ c = ']' ∨ c = '^' ∨ c = '|' ∨ c = '\\'

/-- Model of `new URL(s)` on a fragment of the WHATWG grammar: on
success returns `(hostname, pathname)` where `pathname` is the raw
path slice (possibly `[]`).  Fails (`none`, the model of a thrown
`TypeError`) when there is no `scheme://` prefix or the host or port
is invalid — in particular on an empty host.  Outside the modelled
fragment the real parser rewrites its input where this model copies
it: it turns `\` into `/` in special-scheme paths, removes dot
segments (`.` and `..`, literal or percent-encoded), drops a
`localhost` host under the `file` scheme, percent-encodes path code
points of the path encode set, runs IDNA on hosts (punycode `xn--`
labels, non-ASCII) and parses all-digit trailing host labels as IPv4,
and accepts `scheme:opaque` inputs with no `//`.  Every theorem below
that quantifies over URLs therefore restricts its domain, via
`urlScheme`, `urlHost`, `urlPath`, `urlPathEsc` and `canonSafe`, to
inputs the real parser copies verbatim, where model and program agree;
concrete evaluations stay inside that fragment. -/
def parseURLCore (l : List Char) : Option (List Char × List Char) :=
  match splitAtColon l with
  | none => none
  | some (sch, rest) =>
    if schemeOk sch then
      match rest with
      | '/' :: '/' :: r =>
        let auth := r.takeWhile (fun c => ¬(c = '/' ∨ c = '?' ∨ c = '#'))
        let after := r.drop auth.length
        let host := auth.takeWhile (fun c => c ≠ ':')
        let portPart := auth.drop host.length
        let portOk := match portPart with
          | [] => true
          | _ :: ds => ds.all asciiDigit
        if !host.isEmpty && host.all (fun c => !forbiddenHostChar c) && portOk then
          some (host, after.takeWhile (fun c => ¬(c = '?' ∨ c = '#')))
        else none
      | _ => none
    else none

/-- `s.split("?")[0]` / `s.split("#")[0]`: the prefix before the first
occurrence of the character. -/
def takeUntil (c : Char) (l : List Char) : List Char :=
  l.takeWhile (fun d => d ≠ c)

/-- `.replace(/\/$/, "")`: strip one trailing slash. -/
def stripTrailingSlash (l : List Char) : List Char :=
  if l.getLast? = some '/' then l.dropLast else l

/-- `host.startsWith("www.") ? host.slice(4) : host`. -/
def stripWww (l : List Char) : List Char :=
  if ("www.".data).isPrefixOf l then l.drop 4 else l

/-- One path-canonicalisation step of `normalizeUrlForMatch`:
`path = u.pathname || "/"`, best-effort `decodeURI`, strip one trailing
slash unless the path is exactly `/`. -/
def canonPath (path0 : List Char) : List Char :=
  let p0 := if path0 = [] then ['/'] else path0
  let p1 := decodeD p0
  if 1 < p1.length ∧ p1.getLast? = some '/' then p1.dropLast else p1

/-- Host canonicalisation of `normalizeUrlForMatch`: lower-case, strip
a leading `www.`. -/
def canonHost (host0 : List Char) : List Char :=
  stripWww (host0.map Char.toLower)

/-- `normalizeUrlForMatch` from `src/server.js` (identical copies in
`src/unnamed/part_000`): on a parsable absolute URL, recompose
`https://{host}{path}` with lower-cased de-`www.`ed host and decoded,
slash-stripped path; on parse failure, cut at the first `?`, then at
the first `#`, and strip one trailing slash.  Empty input (the only
falsy string) and whitespace-only input yield `""`. -/
def normalizeUrlForMatch (input : String) : String :=
  if input = "" then ""
  else
    let s := trimChars input.data
    if s = [] then ""
    else
      match parseURLCore s with
      | some (host0, path0) =>
        String.mk ("https://".data ++ canonHost host0 ++ canonPath path0)
      | none =>
        String.mk (stripTrailingSlash (takeUntil '#' (takeUntil '?' s)))

example : normalizeUrlForMatch "https://example.com/a?gclid=123" = "https://example.com/a" := by decide
example : normalizeUrlForMatch "https://www.example.com/a/" = "https://example.com/a" := by decide
example : normalizeUrlForMatch "http://EXAMPLE.com/a" = "https://example.com/a" := by decide
example : normalizeUrlForMatch "https://example.com/a" = "https://example.com/a" := by decide
example : normalizeUrlForMatch "x//" = "x/" := by decide
example : normalizeUrlForMatch "x/" = "x" := by decide
example : normalizeUrlForMatch "https://www.www.example.com/a" = "https://www.example.com/a" := by decide
example : normalizeUrlForMatch "https://example.com/a%2Fb" = "https://example.com/a%2Fb" := by decide
example : normalizeUrlForMatch "https://example.com/a/b" = "https://example.com/a/b" := by decide
example : normalizeUrlForMatch "https://example.com/x%4a" = "https://example.com/xJ" := by decide
example : normalizeUrlForMatch "https://example.com/x%4A" = "https://example.com/xJ" := by decide
example : normalizeUrlForMatch "https://a.com/%2541" = "https://a.com/%41" := by decide
example : normalizeUrlForMatch "https://a.com/%41" = "https://a.com/A" := by decide
example : normalizeUrlForMatch "https://a.com/b%20" = "https://a.com/b " := by decide
example : normalizeUrlForMatch "https://a.com/b " = "https://a.com/b" := by decide
example : normalizeUrlForMatch "" = "" := by decide
example : normalizeUrlForMatch "https://example.com" = "https://example.com/" := by decide

/-- JavaScript numbers: a finite value (modelled as an exact rational)
or one of the non-finite values. -/
inductive JSNum where
  | fin (q : ℚ)
  | nan
  | inf
  | ninf
deriving DecidableEq, Repr

/-- JavaScript values as they occur in analytics rows and query
parameters: null, undefined (also the result of a missing field),
booleans, numbers, strings and (non-array) objects. -/
inductive JSVal where
  | vnull
  | vundefined
  | vbool (b : Bool)
  | vnum (n : JSNum)
  | vstr (s : String)
  | vobj
deriving DecidableEq, Repr

/-- `Number.isFinite(n) ? n : 0` — the finite value of a JS number, 0
for the non-finite ones. -/
def finOr0 : JSNum → ℚ
  | .fin q => q
  | _ => 0

/-- Unary minus on a JS number. -/
def negJS : JSNum → JSNum
  | .fin q => .fin (-q)
  | .nan => .nan
  | .inf => .ninf
  | .ninf => .inf

/-- Value of a decimal digit string. -/
def decDigitsVal (l : List Char) : ℕ :=
  l.foldl (fun a c => a * 10 + (c.toNat - 48)) 0

/-- Value of a digit string in the given base (digits already
validated). -/
def baseDigitsVal (base : ℕ) (l : List Char) : ℕ :=
  l.foldl (fun a c => a * base + hexVal c) 0

/-- Optional exponent suffix of a JS decimal literal: empty means
exponent 0; otherwise `e`/`E`, an optional sign and a nonempty digit
string. -/
def parseExpOpt : List Char → Option ℤ
  | [] => some 0
  | c :: r =>
    if c = 'e' ∨ c = 'E' then
      match r with
      | '+' :: d => if d ≠ [] ∧ d.all asciiDigit then some (decDigitsVal d) else none
      | '-' :: d => if d ≠ [] ∧ d.all asciiDigit then some (-(decDigitsVal d : ℤ)) else none
      | d => if d ≠ [] ∧ d.all asciiDigit then some (decDigitsVal d) else none
    else none

/-- Scale a rational by a power of ten. -/
def scalePow10 (q : ℚ) (z : ℤ) : ℚ :=
  if 0 ≤ z then q * 10 ^ z.toNat else q / 10 ^ (-z).toNat

/-- Unsigned JS decimal literal: `digits[.digits][exp]` or
`.digits[exp]`; `none` models NaN. -/
def parseUnsignedDec (l : List Char) : Option ℚ :=
  let ip := l.takeWhile asciiDigit
  let rest := l.drop ip.length
  match rest with
  | [] => if ip = [] then none else some (decDigitsVal ip)
  | '.' :: r =>
    let fp := r.takeWhile asciiDigit
    let rest2 := r.drop fp.length
    if ip = [] ∧ fp = [] then none
    else
      (fun z => scalePow10 ((decDigitsVal ip : ℚ) + (decDigitsVal fp : ℚ) / 10 ^ fp.length) z) <$>
        parseExpOpt rest2
  | _ =>
    if ip = [] then none
    else (fun z => scalePow10 (decDigitsVal ip : ℚ) z) <$> parseExpOpt rest

/-- Unsigned JS decimal literal or `Infinity` (the forms a sign may
precede). -/
def parseSignable (l : List Char) : JSNum :=
  if l = "Infinity".data then .inf
  else
    match parseUnsignedDec l with
    | some q => .fin q
    | none => .nan

/-- Model of `Number(string)`: trim, empty string is 0, an optional
sign followed by a decimal literal or `Infinity`, or an unsigned
`0x`/`0b`/`0o` radix literal; everything else is NaN. -/
def jsNumberOfString (s : String) : JSNum :=
  let l := trimChars s.data
  if l = [] then .fin 0
  else
    match l with
    | '+' :: r => parseSignable r
    | '-' :: r => negJS (parseSignable r)
    | '0' :: 'x' :: r => if r ≠ [] ∧ r.all hexDigit then .fin (baseDigitsVal 16 r) else .nan
    | '0' :: 'X' :: r => if r ≠ [] ∧ r.all hexDigit then .fin (baseDigitsVal 16 r) else .nan
    | '0' :: 'b' :: r => if r ≠ [] ∧ r.all (fun c => c = '0' ∨ c = '1') then .fin (baseDigitsVal 2 r) else .nan
    | '0' :: 'B' :: r => if r ≠ [] ∧ r.all (fun c => c = '0' ∨ c = '1') then .fin (baseDigitsVal 2 r) else .nan
    | '0' :: 'o' :: r => if r ≠ [] ∧ r.all (fun c => '0' ≤ c ∧ c ≤ '7') then .fin (baseDigitsVal 8 r) else .nan
    | '0' :: 'O' :: r => if r ≠ [] ∧ r.all (fun c => '0' ≤ c ∧ c ≤ '7') then .fin (baseDigitsVal 8 r) else .nan
    | _ => parseSignable l

/-- Model of the JS `Number(v)` conversion on the modelled value
domain. -/
def jsToNumber : JSVal → JSNum
  | .vnull => .fin 0
  | .vundefined => .nan
  | .vbool b => .fin (if b then 1 else 0)
  | .vnum n => n
  | .vstr s => jsNumberOfString s
  | .vobj => .nan

/-- `asNumber` from `src/server.js` (identical copy in
`src/unnamed/part_000`): null/undefined are 0; a number is itself when
finite, else 0; a string is parsed via `Number`, non-finite results
are 0; every other value is 0. -/
def asNumber : JSVal → ℚ
  | .vnull => 0
  | .vundefined => 0
  | .vnum n => finOr0 n
  | .vstr s => finOr0 (jsNumberOfString s)
  | _ => 0

/-- `num` from `src/server.js`: null/undefined are 0; a number is
itself when finite, else 0; every other value goes through `Number(v)`
and the result is kept when finite, else 0. -/
def num (v : JSVal) : ℚ :=
  match v with
  | .vnull => 0
  | .vundefined => 0
  | .vnum n => finOr0 n
  | _ => finOr0 (jsToNumber v)

/-- JS truthiness on the modelled value domain (`!v` is `jsFalsy v`). -/
def jsFalsy : JSVal → Bool
  | .vnull => true
  | .vundefined => true
  | .vbool b => !b
  | .vnum (.fin q) => q = 0
  | .vnum .nan => true
  | .vnum _ => false
  | .vstr s => s = ""
  | .vobj => false

/-- JS `a || b`. -/
def jsOr (a b : JSVal) : JSVal :=
  if jsFalsy a then b else a

/-- Least `k` with `d ∣ 10 ^ k` (exists for every denominator a JS
float can produce). -/
def decExp (d : ℕ) : Option ℕ :=
  (List.range 400).find? (fun k => d ∣ 10 ^ k)

/-- Decimal rendering of a rational: integers print without a point,
terminating decimals print in positional notation (the cases `String(n)`
produces for JS numbers); non-terminating rationals — unreachable from
JS arithmetic — fall back to a fraction rendering.  This models JS
number-to-string conversion on the values the service handles; no
verified claim depends on its exact output. -/
def qToString (q : ℚ) : String :=
  match decExp q.den with
  | some k =>
    if k = 0 then toString q.num
    else
      let n := q.num.natAbs * (10 ^ k / q.den)
      let ip := n / 10 ^ k
      let fp := n % 10 ^ k
      let fpStr := toString fp
      (if q.num < 0 then "-" else "") ++ toString ip ++ "." ++
        String.mk (List.replicate (k - fpStr.length) '0') ++ fpStr
  | none => toString q.num ++ "/" ++ toString q.den

/-- Model of JS `String(v)`. -/
def jsToString : JSVal → String
  | .vnull => "null"
  | .vundefined => "undefined"
  | .vbool true => "true"
  | .vbool false => "false"
  | .vnum (.fin q) => qToString q
  | .vnum .nan => "NaN"
  | .vnum .inf => "Infinity"
  | .vnum .ninf => "-Infinity"
  | .vstr s => s
  | .vobj => "[object Object]"

example : asNumber (.vstr "42") = 42 := by decide
example : asNumber (.vstr "abc") = 0 := by decide
example : asNumber (.vstr "") = 0 := by decide
example : asNumber (.vstr " 150 ") = 150 := by decide
example : asNumber (.vstr "Infinity") = 0 := by decide
example : asNumber (.vstr "0x10") = 16 := by decide
example : asNumber (.vstr "-0x10") = 0 := by decide
example : asNumber (.vnum .nan) = 0 := by decide
example : asNumber (.vbool true) = 0 := by decide
example : num (.vbool true) = 1 := by decide
example : num (.vbool false) = 0 := by decide
example : num (.vobj) = 0 := by decide
example : num (.vstr "-25") = -25 := by decide

/-- An analytics row: a JS object, modelled as an association list of
field name / value pairs (first binding wins, as in a JS object
literal with duplicate keys). -/
abbrev Row := List (String × JSVal)

/-- Field access `r.k` — `undefined` when the field is absent. -/
def getProp (r : Row) (k : String) : JSVal :=
  ((r.find? (fun kv => kv.1 == k)).map Prod.snd).getD .vundefined

/-- `Object.prototype.hasOwnProperty.call(r, k)`. -/
def hasOwnProp (r : Row) (k : String) : Bool :=
  (r.find? (fun kv => kv.1 == k)).isSome

/-- `r?.Url || r?.URL || r?.url || ""` — the URL-bearing field of a
row in `src/server.js` (note the `Url`-first order). -/
def rowUrlSrv (r : Row) : JSVal :=
  jsOr (getProp r "Url") (jsOr (getProp r "URL") (jsOr (getProp r "url") (.vstr "")))

/-- `r.URL || r.Url || r.url` as in `src/unnamed/part_000` (the
`URL`-first order); the `undefined` of the all-absent case behaves like
`""` downstream, so the model uses the same final default. -/
def rowUrlP0 (r : Row) : JSVal :=
  jsOr (getProp r "URL") (jsOr (getProp r "Url") (jsOr (getProp r "url") (.vstr "")))

/-- `normalizeUrlForMatch` applied to an arbitrary row value: the
`if (!input) return ""` guard on the JS value, then `String(input)`
and the string-level normalization. -/
def normalizeValForMatch (v : JSVal) : String :=
  if jsFalsy v then "" else normalizeUrlForMatch (jsToString v)

/-- Occurrence of one character list inside another. -/
def listInfixOf (needle : List Char) : List Char → Bool
  | [] => needle.isEmpty
  | c :: rest => needle.isPrefixOf (c :: rest) || listInfixOf needle rest

/-- JS `haystack.includes(needle)`. -/
def jsIncludes (hay needle : String) : Bool :=
  listInfixOf needle.data hay.data

/-- `String.prototype.toLowerCase` (ASCII scope, the service's
domain). -/
def lowerStr (s : String) : String :=
  String.mk (s.data.map Char.toLower)

/-- `metricNameHas` from `src/unnamed/part_000`: case-insensitive
substring test on the block name. -/
def metricNameHas (metricName phrase : String) : Bool :=
  jsIncludes (lowerStr metricName) (lowerStr phrase)

/-- First pass of `pickNumber`: the first candidate field that is
present and coerces to a non-zero number.  (The source also checks
`Number.isFinite(n)`, which is vacuous after `asNumber`.) -/
def pickFirstNonZeroLoop (r : Row) : List String → Option ℚ
  | [] => none
  | k :: ks =>
    if hasOwnProp r k then
      let n := asNumber (getProp r k)
      if n ≠ 0 then some n else pickFirstNonZeroLoop r ks
    else pickFirstNonZeroLoop r ks

/-- Second pass of `pickNumber`: the coerced value of the first
candidate field that is present. -/
def firstPresentLoop (r : Row) : List String → Option ℚ
  | [] => none
  | k :: ks => if hasOwnProp r k then some (asNumber (getProp r k)) else firstPresentLoop r ks

/-- `pickNumber` from `src/unnamed/part_000`: try each candidate field
name in order and return the first non-zero coerced value; failing
that, the coerced value of the first present candidate; failing that,
0. -/
def pickNumber (r : Row) (keys : List String) : ℚ :=
  match pickFirstNonZeroLoop r keys with
  | some n => n
  | none =>
    match firstPresentLoop r keys with
    | some n => n
    | none => 0

/-- One metric block of the Clarity export:
`{ metricName, information }`.  The source's
`String(block.metricName || "")` coercion and the
`Array.isArray(block.information) ? ... : []` guard are absorbed into
the model (the name is the coerced string, a non-array `information`
is the empty row list). -/
structure MetricBlock where
  metricName : String
  information : List Row
deriving DecidableEq, Repr

/-- A Clarity export payload: a list of metric blocks. -/
abbrev Payload := List MetricBlock

/-- JS `Math.round`: round half toward positive infinity. -/
def jsRound (q : ℚ) : ℚ :=
  ((⌊q + 1/2⌋ : ℤ) : ℚ)

/-- `initGroup()` target shape from `src/server.js`. -/
structure GroupAcc where
  sessionsCount : ℚ
  sessionsWithMetricPercentage : ℚ
  sessionsWithoutMetricPercentage : ℚ
  pagesViews : ℚ
  subTotal : ℚ
deriving DecidableEq, Repr

/-- `initGroup()`. -/
def initGroup : GroupAcc :=
  ⟨0, 0, 0, 0, 0⟩

/-- `addGroup(target, r)`: sum the five fixed sub-fields of a group
block row. -/
def addGroup (target : GroupAcc) (r : Row) : GroupAcc where
  sessionsCount := target.sessionsCount + num (getProp r "sessionsCount")
  sessionsWithMetricPercentage :=
    target.sessionsWithMetricPercentage + num (getProp r "sessionsWithMetricPercentage")
  sessionsWithoutMetricPercentage :=
    target.sessionsWithoutMetricPercentage + num (getProp r "sessionsWithoutMetricPercentage")
  pagesViews := target.pagesViews + num (getProp r "pagesViews")
  subTotal := target.subTotal + num (getProp r "subTotal")

/-- The `AggregatedRecord` of `src/server.js`
(`createBaseOutput`'s shape). -/
structure AggRecord where
  targetUrl : String
  normalizedTarget : String
  matchedRows : ℕ
  totalSessionCount : ℚ
  totalBotSessionCount : ℚ
  distinctUserCount : ℚ
  pagesPerSessionPercentage : ℚ
  totalTime : ℚ
  activeTime : ℚ
  averageScrollDepth : ℚ
  RageClickCount : GroupAcc
  DeadClickCount : GroupAcc
  ExcessiveScroll : GroupAcc
  QuickbackClick : GroupAcc
  ScriptErrorCount : GroupAcc
  ErrorClickCount : GroupAcc
  avgSessionDurationSec : ℚ
  activeTimePerSessionSec : ℚ
deriving DecidableEq, Repr

/-- `createBaseOutput(targetFinalUrl)`. -/
def createBaseOutput (targetFinalUrl : String) : AggRecord where
  targetUrl := targetFinalUrl
  normalizedTarget := normalizeUrlForMatch targetFinalUrl
  matchedRows := 0
  totalSessionCount := 0
  totalBotSessionCount := 0
  distinctUserCount := 0
  pagesPerSessionPercentage := 0
  totalTime := 0
  activeTime := 0
  averageScrollDepth := 0
  RageClickCount := initGroup
  DeadClickCount := initGroup
  ExcessiveScroll := initGroup
  QuickbackClick := initGroup
  ScriptErrorCount := initGroup
  ErrorClickCount := initGroup
  avgSessionDurationSec := 0
  activeTimePerSessionSec := 0

/-- Loop state of `aggregateAllMetricsFromExport`: the record under
construction plus the running sum/count pairs used for the two
averaged metrics. -/
structure AggSt where
  out : AggRecord
  scrollDepthSum : ℚ
  scrollDepthN : ℕ
  pagesPerSessionPctSum : ℚ
  pagesPerSessionPctN : ℕ
deriving DecidableEq, Repr

/-- The row predicate/URL-match guard of the aggregation loop:
`if (filterFn && !filterFn(r)) continue;` then skip rows whose
normalized URL is empty or differs from the normalized target. -/
def rowMatches (nt : String) (filterFn : Option (Row → Bool)) (r : Row) : Bool :=
  (match filterFn with
   | some f => f r
   | none => true) &&
  (normalizeValForMatch (rowUrlSrv r) != "") &&
  (normalizeValForMatch (rowUrlSrv r) == nt)

/-- The `metricName === "Traffic"` branch of the aggregation loop. -/
def stepTraffic (metricName : String) (r : Row) (st : AggSt) : AggSt :=
  if metricName = "Traffic" then
    let st := { st with out := { st.out with
      totalSessionCount := st.out.totalSessionCount + num (getProp r "totalSessionCount")
      totalBotSessionCount := st.out.totalBotSessionCount + num (getProp r "totalBotSessionCount")
      distinctUserCount := st.out.distinctUserCount + num (getProp r "distinctUserCount") } }
    let p := num (getProp r "pagesPerSessionPercentage")
    if p ≠ 0 then
      { st with pagesPerSessionPctSum := st.pagesPerSessionPctSum + p
                pagesPerSessionPctN := st.pagesPerSessionPctN + 1 }
    else st
  else st

/-- The `metricName === "EngagementTime"` branch. -/
def stepEngagement (metricName : String) (r : Row) (st : AggSt) : AggSt :=
  if metricName = "EngagementTime" then
    { st with out := { st.out with
      totalTime := st.out.totalTime + num (getProp r "totalTime")
      activeTime := st.out.activeTime + num (getProp r "activeTime") } }
  else st

/-- The `metricName === "ScrollDepth"` branch. -/
def stepScrollDepth (metricName : String) (r : Row) (st : AggSt) : AggSt :=
  if metricName = "ScrollDepth" then
    let d := num (getProp r "averageScrollDepth")
    if d ≠ 0 then
      { st with scrollDepthSum := st.scrollDepthSum + d
                scrollDepthN := st.scrollDepthN + 1 }
    else st
  else st

/-- The six `addGroup` branches (rage/dead/excessive/quickback/script
error/error click), folded into one step dispatching on the block
name. -/
def stepGroups (metricName : String) (r : Row) (st : AggSt) : AggSt :=
  let st :=
    if metricName = "RageClickCount" then
      { st with out := { st.out with RageClickCount := addGroup st.out.RageClickCount r } }
    else st
  let st :=
    if metricName = "DeadClickCount" then
      { st with out := { st.out with DeadClickCount := addGroup st.out.DeadClickCount r } }
    else st
  let st :=
    if metricName = "ExcessiveScroll" then
      { st with out := { st.out with ExcessiveScroll := addGroup st.out.ExcessiveScroll r } }
    else st
  let st :=
    if metricName = "QuickbackClick" then
      { st with out := { st.out with QuickbackClick := addGroup st.out.QuickbackClick r } }
    else st
  let st :=
    if metricName = "ScriptErrorCount" then
      { st with out := { st.out with ScriptErrorCount := addGroup st.out.ScriptErrorCount r } }
    else st
  let st :=
    if metricName = "ErrorClickCount" then
      { st with out := { st.out with ErrorClickCount := addGroup st.out.ErrorClickCount r } }
    else st
  st

/-- Body of the inner row loop of `aggregateAllMetricsFromExport`:
skip filtered-out and non-matching rows, count the match, then apply
the per-block-name accumulation branches in source order. -/
def aggRowSrv (nt : String) (filterFn : Option (Row → Bool)) (metricName : String)
    (st : AggSt) (r : Row) : AggSt :=
  if !rowMatches nt filterFn r then st
  else
    stepGroups metricName r
      (stepScrollDepth metricName r
        (stepEngagement metricName r
          (stepTraffic metricName r
            { st with out := { st.out with matchedRows := st.out.matchedRows + 1 } })))

/-- `aggregateAllMetricsFromExport(exportJson, targetFinalUrl,
filterFn)` from `src/server.js`: fold every row of every block through
`aggRowSrv`, then derive the averaged and per-session metrics. -/
def aggregateAllMetricsFromExport (exportJson : Payload) (targetFinalUrl : String)
    (filterFn : Option (Row → Bool)) : AggRecord :=
  let out0 := createBaseOutput targetFinalUrl
  let st : AggSt := exportJson.foldl
    (fun st b => b.information.foldl (aggRowSrv out0.normalizedTarget filterFn b.metricName) st)
    ⟨out0, 0, 0, 0, 0⟩
  let out : AggRecord := st.out
  let out :=
    if 0 < st.scrollDepthN then
      { out with averageScrollDepth := jsRound (st.scrollDepthSum / st.scrollDepthN) }
    else out
  let out :=
    if 0 < st.pagesPerSessionPctN then
      { out with pagesPerSessionPercentage := jsRound (st.pagesPerSessionPctSum / st.pagesPerSessionPctN) }
    else out
  let out :=
    if 0 < out.totalSessionCount ∧ 0 < out.totalTime then
      { out with avgSessionDurationSec := jsRound (out.totalTime / out.totalSessionCount) }
    else out
  let out :=
    if 0 < out.totalSessionCount ∧ 0 < out.activeTime then
      { out with activeTimePerSessionSec := jsRound (out.activeTime / out.totalSessionCount) }
    else out
  out

/-- Output shape of `aggregateByEntryUrl` from `src/unnamed/part_000`. -/
structure AggByUrl where
  targetUrl : String
  normalizedTarget : String
  matchedRows : ℕ
  sessions : ℚ
  users : ℚ
  engagedSessions : ℚ
  clicks : ℚ
  scrolls : ℚ
  rageClicks : ℚ
  deadClicks : ℚ
  avgSessionDuration : ℚ
deriving DecidableEq, Repr

/-- Loop state of `aggregateByEntryUrl`: the record plus the
session-duration running sum/count pair. -/
structure AggByUrlSt where
  out : AggByUrl
  durationSum : ℚ
  durationCount : ℕ
deriving DecidableEq, Repr

/-- Candidate field names for the average session duration in
`src/unnamed/part_000`. -/
def durationKeys : List String :=
  ["avgSessionDuration", "averageSessionDuration", "avgDurationSeconds",
   "avgDuration", "sessionDuration", "durationSeconds"]

/-- Body of the row loop of `aggregateByEntryUrl`
(`src/unnamed/part_000`); the `metricNameHas` guards are not mutually
exclusive and fire independently, exactly as in the source. -/
def aggRowP0 (nt : String) (metricName : String) (st : AggByUrlSt) (r : Row) : AggByUrlSt :=
  let rowNorm := normalizeValForMatch (rowUrlP0 r)
  if rowNorm = "" ∨ rowNorm ≠ nt then st
  else
    let st := { st with out := { st.out with matchedRows := st.out.matchedRows + 1 } }
    let st :=
      if metricNameHas metricName "traffic" then
        { st with out := { st.out with
          sessions := st.out.sessions +
            pickNumber r ["totalSessionCount", "sessionCount", "sessions", "totalSessions"]
          users := st.out.users +
            pickNumber r ["distantUserCount", "distinctUserCount", "uniqueUsers", "userCount",
                          "users", "totalUsers"] } }
      else st
    let st :=
      if metricNameHas metricName "engagement" then
        let st := { st with out := { st.out with
          engagedSessions := st.out.engagedSessions +
            pickNumber r ["engagedSessionCount", "engagedSessions", "totalEngagedSessions", "count"] } }
        let avgDur := pickNumber r durationKeys
        if 0 < avgDur then
          { st with durationSum := st.durationSum + avgDur, durationCount := st.durationCount + 1 }
        else st
      else st
    let st :=
      if metricNameHas metricName "click" || metricNameHas metricName "popular" then
        { st with out := { st.out with
          clicks := st.out.clicks +
            pickNumber r ["clickCount", "clicks", "totalClickCount", "totalClicks", "count"] } }
      else st
    let st :=
      if metricNameHas metricName "scroll" then
        { st with out := { st.out with
          scrolls := st.out.scrolls +
            pickNumber r ["scrollCount", "scrolls", "totalScrollCount", "totalScrolls", "count"] } }
      else st
    let st :=
      if metricNameHas metricName "rage" then
        { st with out := { st.out with
          rageClicks := st.out.rageClicks +
            pickNumber r ["rageClickCount", "rageClicks", "totalRageClickCount", "count"] } }
      else st
    let st :=
      if metricNameHas metricName "dead" then
        { st with out := { st.out with
          deadClicks := st.out.deadClicks +
            pickNumber r ["deadClickCount", "deadClicks", "totalDeadClickCount", "count"] } }
      else st
    let st :=
      if metricNameHas metricName "duration" || metricNameHas metricName "time" then
        let avgDur := pickNumber r durationKeys
        if 0 < avgDur then
          { st with durationSum := st.durationSum + avgDur, durationCount := st.durationCount + 1 }
        else st
      else st
    st

/-- `aggregateByEntryUrl(exportJson, targetFinalUrl)` from
`src/unnamed/part_000`. -/
def aggregateByEntryUrl (exportJson : Payload) (targetFinalUrl : String) : AggByUrl :=
  let nt := normalizeUrlForMatch targetFinalUrl
  let out0 : AggByUrl := ⟨targetFinalUrl, nt, 0, 0, 0, 0, 0, 0, 0, 0, 0⟩
  let st : AggByUrlSt := exportJson.foldl
    (fun st b => b.information.foldl (aggRowP0 nt b.metricName) st)
    ⟨out0, 0, 0⟩
  if 0 < st.durationCount then
    { st.out with avgSessionDuration := jsRound (st.durationSum / st.durationCount) }
  else st.out

/-- `isPaidSearchChannel(channelValue)` from `src/server.js`. -/
def isPaidSearchChannel (channelValue : JSVal) : Bool :=
  let v := jsTrim (lowerStr (jsToString (jsOr channelValue (.vstr ""))))
  if v = "" then false
  else if v = "paid search" then true
  else if jsIncludes v "paid" && jsIncludes v "search" then true
  else if jsIncludes v "cpc" || jsIncludes v "ppc" then true
  else false

/-- `isGoogleCpc(sourceValue, mediumValue)` from `src/server.js`. -/
def isGoogleCpc (sourceValue mediumValue : JSVal) : Bool :=
  let s := jsTrim (lowerStr (jsToString (jsOr sourceValue (.vstr ""))))
  let m := jsTrim (lowerStr (jsToString (jsOr mediumValue (.vstr ""))))
  let sourceOk := s == "google" || jsIncludes s "google"
  let mediumOk := m == "cpc" || m == "ppc" || jsIncludes m "cpc" || jsIncludes m "ppc"
  sourceOk && mediumOk

example : isPaidSearchChannel (.vstr "Paid Search") = true := by decide
example : isPaidSearchChannel (.vstr "Organic") = false := by decide
example : isGoogleCpc (.vstr "google.com") (.vstr "cpc") = true := by decide
example : isGoogleCpc (.vstr "bing") (.vstr "cpc") = false := by decide

/-- A cache entry `{ expiresAt, payload }`. -/
structure CacheEntry where
  expiresAt : ℕ
  payload : Payload
deriving DecidableEq, Repr

/-- The in-memory `Map` cache, as an association list in insertion
order. -/
abbrev Cache := List (String × CacheEntry)

/-- `cache.get(key)`. -/
def mapGet (m : Cache) (k : String) : Option CacheEntry :=
  ((m.find? (fun kv => kv.1 == k)).map Prod.snd)

/-- `cache.set(key, value)`: overwrite in place, or append a new
binding. -/
def mapSet (m : Cache) (k : String) (v : CacheEntry) : Cache :=
  if (m.find? (fun kv => kv.1 == k)).isSome then
    m.map (fun kv => if kv.1 == k then (k, v) else kv)
  else m ++ [(k, v)]

/-- `parseInt(s, 10)`: skip leading whitespace, optional sign, a
nonempty decimal digit prefix (trailing junk ignored); `none` models
NaN. -/
def jsParseInt (s : String) : Option ℤ :=
  let l := s.data.dropWhile jsWs
  let digitsVal : List Char → Option ℤ := fun d =>
    let ds := d.takeWhile asciiDigit
    if ds = [] then none else some (decDigitsVal ds)
  match l with
  | '+' :: r => digitsVal r
  | '-' :: r => (fun z => -z) <$> digitsVal r
  | r => digitsVal r

/-- `Math.min(Math.max(parseInt(days, 10) || 3, 1), 3)` — the day
count clamped to the supported 1–3 range, with `|| 3` turning NaN and
0 into the default 3. -/
def safeDaysOf (days : String) : ℤ :=
  min (max (match jsParseInt days with
            | some z => if z = 0 then 3 else z
            | none => 3) 1) 3

/-- The 23-hour TTL of `fetchClarityExport`. -/
def TTL_FULL_MS : ℕ := 23 * 60 * 60 * 1000

/-- The 5-minute TTL of `fetchClarityLiveInsights`. -/
def CACHE_TTL_MS : ℕ := 5 * 60 * 1000

/-- Cache key of `fetchClarityExport`:
`` `FULL|${safeDays}|${d1}|${d2 || ""}|${d3 || ""}` ``. -/
def cacheKeyFull (days d1 : String) (d2 d3 : Option String) : String :=
  "FULL|" ++ toString (safeDaysOf days) ++ "|" ++ d1 ++ "|" ++ d2.getD "" ++ "|" ++ d3.getD ""

/-- `fetchClarityExport({days, d1, d2, d3, force})` from
`src/server.js`.  The upstream call (HTTP fetch + JSON parse) is the
explicit `upstream` outcome; the result triple is (returned value or
thrown error, cache state after the call, whether the upstream call
was made).  On a fresh fetch the entry is stored only on success, with
`expiresAt = now + TTL` — a failure leaves the cache untouched. -/
def fetchClarityExport (days d1 : String) (d2 d3 : Option String) (force : Bool)
    (now : ℕ) (cache : Cache) (upstream : Except String Payload) :
    Except String Payload × Cache × Bool :=
  let key := cacheKeyFull days d1 d2 d3
  let fetched : Except String Payload × Cache × Bool :=
    match upstream with
    | .error msg => (.error msg, cache, true)
    | .ok json => (.ok json, mapSet cache key ⟨now + TTL_FULL_MS, json⟩, true)
  match mapGet cache key with
  | some e => if force = false ∧ now < e.expiresAt then (.ok e.payload, cache, false) else fetched
  | none => fetched

/-- Cache key of `fetchClarityLiveInsights`:
`` `${safeDays}|${dimension1}` ``. -/
def cacheKeyLive (days dimension1 : String) : String :=
  toString (safeDaysOf days) ++ "|" ++ dimension1

/-- `fetchClarityLiveInsights({days, dimension1})` from
`src/unnamed/part_000`: same read-through shape as
`fetchClarityExport`, without a force flag and with the 5-minute
TTL. -/
def fetchClarityLiveInsights (days dimension1 : String)
    (now : ℕ) (cache : Cache) (upstream : Except String Payload) :
    Except String Payload × Cache × Bool :=
  let key := cacheKeyLive days dimension1
  let fetched : Except String Payload × Cache × Bool :=
    match upstream with
    | .error msg => (.error msg, cache, true)
    | .ok json => (.ok json, mapSet cache key ⟨now + CACHE_TTL_MS, json⟩, true)
  match mapGet cache key with
  | some e => if now < e.expiresAt then (.ok e.payload, cache, false) else fetched
  | none => fetched

/-- Responses of the modelled HTTP handlers: a 400 rejection, a 502
upstream error, or the JSON value of the 200 response. -/
inductive HandlerResp (α : Type) where
  | badRequest (msg : String)
  | upstreamErr (msg : String)
  | ok (body : α)
deriving DecidableEq, Repr

/-- `req.query.x || dflt` on an optional query parameter. -/
def strOr (o : Option String) (dflt : String) : String :=
  match o with
  | some s => if s = "" then dflt else s
  | none => dflt

/-- The `GET /metrics` handler of `src/unnamed/part_000`: reject a
missing/empty url, then a url longer than 2000 characters, before the
fetch; otherwise fetch (cache-respecting) and aggregate. -/
def metricsHandlerP0 (urlQ daysQ : Option String) (now : ℕ) (cache : Cache)
    (upstream : Except String Payload) : HandlerResp AggByUrl × Cache × Bool :=
  let targetUrl := jsTrim (urlQ.getD "")
  let days := strOr daysQ "3"
  if targetUrl = "" then (.badRequest "Missing query param: url", cache, false)
  else if 2000 < targetUrl.length then (.badRequest "URL too long", cache, false)
  else
    match fetchClarityLiveInsights days "URL" now cache upstream with
    | (.error msg, c, i) => (.upstreamErr msg, c, i)
    | (.ok json, c, i) => (.ok (aggregateByEntryUrl json targetUrl), c, i)

/-- The `GET /metrics` handler of `src/server.js`: reject a
missing/empty url before the fetch (no length check), then fetch the
URL-only export with `force = false` and aggregate with no
predicate. -/
def metricsHandlerSrv (urlQ daysQ : Option String) (now : ℕ) (cache : Cache)
    (upstream : Except String Payload) : HandlerResp AggRecord × Cache × Bool :=
  let targetUrl := jsTrim (urlQ.getD "")
  let days := strOr daysQ "3"
  if targetUrl = "" then (.badRequest "Missing query param: url", cache, false)
  else
    match fetchClarityExport days "URL" none none false now cache upstream with
    | (.error msg, c, i) => (.upstreamErr msg, c, i)
    | (.ok json, c, i) => (.ok (aggregateAllMetricsFromExport json targetUrl none), c, i)

/-- The `GET /metrics-googleads` handler of `src/server.js`: aggregate
the Channel+URL export under `isPaidSearchChannel`; return that result
when it has sessions or matched rows, otherwise fetch the
Source+Medium+URL export and return its aggregate under `isGoogleCpc`.
The result is (response with its `mode` string, final cache, whether
the first / second upstream call was made). -/
def metricsGoogleAdsHandler (urlQ daysQ : Option String) (now : ℕ) (cache : Cache)
    (up1 up2 : Except String Payload) :
    HandlerResp (String × AggRecord) × Cache × Bool × Bool :=
  let targetUrl := jsTrim (urlQ.getD "")
  let days := strOr daysQ "3"
  if targetUrl = "" then (.badRequest "Missing query param: url", cache, false, false)
  else
    match fetchClarityExport days "Channel" (some "URL") none false now cache up1 with
    | (.error msg, c1, i1) => (.upstreamErr msg, c1, i1, false)
    | (.ok pay1, c1, i1) =>
      let r1 := aggregateAllMetricsFromExport pay1 targetUrl
        (some fun row => isPaidSearchChannel (getProp row "Channel"))
      if 0 < r1.totalSessionCount ∨ 0 < r1.matchedRows then
        (.ok ("channel_url_paid_search", r1), c1, i1, false)
      else
        match fetchClarityExport days "Source" (some "Medium") (some "URL") false now c1 up2 with
        | (.error msg, c2, i2) => (.upstreamErr msg, c2, i1, i2)
        | (.ok pay2, c2, i2) =>
          (.ok ("source_medium_url_google_cpc",
            aggregateAllMetricsFromExport pay2 targetUrl
              (some fun row => isGoogleCpc (getProp row "Source") (getProp row "Medium"))), c2, i1, i2)

/-- C4: QuotaCache read-through and forced bypass — with `force` false
and a non-expired entry under the query signature, `fetchClarityExport`
returns that entry's payload without reaching the upstream call and
leaves the cache unchanged; otherwise (no entry, expired entry, or
`force` true) it performs the upstream call and, on success, stores
`{expiresAt: now + TTL, payload}` under the signature (overwriting any
prior entry) and returns the fetched payload. -/
theorem quotaCache_getOrFetch_spec (days d1 : String) (d2 d3 : Option String)
    (now : ℕ) (cache : Cache) (upstream : Except String Payload)
    (e : CacheEntry) (p : Payload) (force : Bool) :
    (mapGet cache (cacheKeyFull days d1 d2 d3) = some e → now < e.expiresAt →
      fetchClarityExport days d1 d2 d3 false now cache upstream =
        (.ok e.payload, cache, false))
    ∧
    ((force = true ∨ mapGet cache (cacheKeyFull days d1 d2 d3) = none ∨
        (∀ e', mapGet cache (cacheKeyFull days d1 d2 d3) = some e' → e'.expiresAt ≤ now)) →
      upstream = .ok p →
      fetchClarityExport days d1 d2 d3 force now cache upstream =
        (.ok p, mapSet cache (cacheKeyFull days d1 d2 d3) ⟨now + TTL_FULL_MS, p⟩, true)) := by
  constructor
  · intro h1 h2
    simp [fetchClarityExport, h1, h2]
  · intro h1 h2
    subst h2
    cases hm : mapGet cache (cacheKeyFull days d1 d2 d3) with
    | none => simp [fetchClarityExport, hm]
    | some e' =>
      rcases h1 with h | h | h
      · subst h
        simp [fetchClarityExport, hm]
      · rw [hm] at h; exact absurd h (by simp)
      · have hle := h e' hm
        simp [fetchClarityExport, hm, Nat.not_lt.mpr hle]

/-- Witness for `quotaCache_getOrFetch_spec`: a concrete cache hit
(fresh entry, `force = false`) and a concrete forced refresh. -/
theorem quotaCache_getOrFetch_spec_witness :
    fetchClarityExport "3" "URL" none none false 50
        [(cacheKeyFull "3" "URL" none none, ⟨100, []⟩)] (.ok [⟨"Traffic", []⟩]) =
      (.ok [], [(cacheKeyFull "3" "URL" none none, ⟨100, []⟩)], false)
    ∧
    fetchClarityExport "3" "URL" none none true 50
        [(cacheKeyFull "3" "URL" none none, ⟨100, []⟩)] (.ok [⟨"Traffic", []⟩]) =
      (.ok [⟨"Traffic", []⟩],
        mapSet [(cacheKeyFull "3" "URL" none none, ⟨100, []⟩)] (cacheKeyFull "3" "URL" none none)
          ⟨50 + TTL_FULL_MS, [⟨"Traffic", []⟩]⟩, true) :=
  ⟨(quotaCache_getOrFetch_spec "3" "URL" none none 50 _ _ ⟨100, []⟩ [] false).1 (by decide)
      (by decide),
   (quotaCache_getOrFetch_spec "3" "URL" none none 50 _ _ ⟨100, []⟩ [⟨"Traffic", []⟩] true).2
      (Or.inl rfl) rfl⟩

/-- C5: cache atomicity on fetch failure — when the upstream outcome
is an error, `fetchClarityExport` leaves the cache exactly as it was
(for every query signature, force flag and cache state), and whenever
the upstream call was actually made the error is what the caller
receives. -/
theorem quotaCache_failure_atomic (days d1 : String) (d2 d3 : Option String) (force : Bool)
    (now : ℕ) (cache : Cache) (msg : String) :
    (fetchClarityExport days d1 d2 d3 force now cache (.error msg)).2.1 = cache
    ∧
    ((fetchClarityExport days d1 d2 d3 force now cache (.error msg)).2.2 = true →
      (fetchClarityExport days d1 d2 d3 force now cache (.error msg)).1 = .error msg) := by
  cases hm : mapGet cache (cacheKeyFull days d1 d2 d3) with
  | none => simp [fetchClarityExport, hm]
  | some e =>
    by_cases hc : force = false ∧ now < e.expiresAt
    · simp [fetchClarityExport, hm, hc]
    · simp [fetchClarityExport, hm, hc]

/-- Witness for `quotaCache_failure_atomic`: a failing upstream call
on a cache holding an expired entry leaves that entry untouched and
surfaces the error. -/
theorem quotaCache_failure_atomic_witness :
    (fetchClarityExport "3" "URL" none none false 200
        [(cacheKeyFull "3" "URL" none none, ⟨100, []⟩)] (.error "Clarity API error 500:")).2.1 =
      [(cacheKeyFull "3" "URL" none none, ⟨100, []⟩)]
    ∧
    (fetchClarityExport "3" "URL" none none false 200
        [(cacheKeyFull "3" "URL" none none, ⟨100, []⟩)] (.error "Clarity API error 500:")).1 =
      .error "Clarity API error 500:" :=
  ⟨(quotaCache_failure_atomic "3" "URL" none none false 200 _ "Clarity API error 500:").1,
   (quotaCache_failure_atomic "3" "URL" none none false 200 _ "Clarity API error 500:").2
      (by decide)⟩

/-- C6 counterexample: the claim says coercion "returns 0 for a value
of any other type", but `num` routes every non-null, non-number value
through `Number(v)`, and JS `Number(true)` is 1 — so `num(true)` is 1,
not 0 (`asNumber(true)` is 0 as claimed). -/
theorem num_boolean_cex : num (.vbool true) = 1 ∧ (1 : ℚ) ≠ 0 := by
  constructor
  · decide
  · decide

/-- C6 amended: case-by-case contract of both coercion functions.
Null/undefined coerce to 0; a finite number is returned unchanged and
a non-finite one becomes 0; a string is parsed with `Number` and kept
when finite, else 0.  `asNumber` returns 0 for every other type, while
`num` converts every other value via `Number(v)` (so booleans map to
0/1 and objects, whose conversion is NaN, map to 0).  Both functions
are total and always yield a (finite) rational. -/
theorem numeric_coercion_spec :
    (asNumber .vnull = 0 ∧ asNumber .vundefined = 0 ∧ num .vnull = 0 ∧ num .vundefined = 0)
    ∧ (∀ q : ℚ, asNumber (.vnum (.fin q)) = q ∧ num (.vnum (.fin q)) = q)
    ∧ (asNumber (.vnum .nan) = 0 ∧ asNumber (.vnum .inf) = 0 ∧ asNumber (.vnum .ninf) = 0 ∧
       num (.vnum .nan) = 0 ∧ num (.vnum .inf) = 0 ∧ num (.vnum .ninf) = 0)
    ∧ (∀ s : String, asNumber (.vstr s) = finOr0 (jsNumberOfString s) ∧
       num (.vstr s) = finOr0 (jsNumberOfString s))
    ∧ (∀ b : Bool, asNumber (.vbool b) = 0)
    ∧ (num (.vbool true) = 1 ∧ num (.vbool false) = 0)
    ∧ (asNumber .vobj = 0 ∧ num .vobj = 0) :=
  ⟨⟨rfl, rfl, rfl, rfl⟩,
   fun _ => ⟨rfl, rfl⟩,
   ⟨rfl, rfl, rfl, rfl, rfl, rfl⟩,
   fun _ => ⟨rfl, rfl⟩,
   fun b => by cases b <;> rfl,
   ⟨rfl, rfl⟩,
   ⟨rfl, rfl⟩⟩

/-- First pass of `pickNumber` as a `find?` over the candidate list. -/
theorem pickFirstNonZeroLoop_eq_find (r : Row) (keys : List String) :
    pickFirstNonZeroLoop r keys =
      (keys.find? (fun k => hasOwnProp r k && decide (asNumber (getProp r k) ≠ 0))).map
        (fun k => asNumber (getProp r k)) := by
  induction keys with
  | nil => rfl
  | cons k ks ih =>
    by_cases h1 : hasOwnProp r k
    · by_cases h2 : asNumber (getProp r k) ≠ 0
      · simp [pickFirstNonZeroLoop, List.find?_cons, h1, h2]
      · simp [pickFirstNonZeroLoop, List.find?_cons, h1, h2, ih]
    · simp [pickFirstNonZeroLoop, List.find?_cons, h1, ih]

/-- Second pass of `pickNumber` as a `find?` over the candidate
list. -/
theorem firstPresentLoop_eq_find (r : Row) (keys : List String) :
    firstPresentLoop r keys =
      (keys.find? (fun k => hasOwnProp r k)).map (fun k => asNumber (getProp r k)) := by
  induction keys with
  | nil => rfl
  | cons k ks ih =>
    by_cases h1 : hasOwnProp r k
    · simp [firstPresentLoop, List.find?_cons, h1]
    · simp [firstPresentLoop, List.find?_cons, h1, ih]

/-- C8: two-pass field selection — `pickNumber` returns the coerced
value of the first candidate (in list order) that is present and
coerces to a non-zero value; when no candidate does, it returns the
coerced value of the first present candidate, which is then
necessarily zero; and it returns 0 when no candidate is present at
all. -/
theorem pickNumber_two_pass_spec (r : Row) (keys : List String) :
    (pickNumber r keys =
      match keys.find? (fun k => hasOwnProp r k && decide (asNumber (getProp r k) ≠ 0)) with
      | some k => asNumber (getProp r k)
      | none =>
        match keys.find? (fun k => hasOwnProp r k) with
        | some k => asNumber (getProp r k)
        | none => 0)
    ∧ (keys.find? (fun k => hasOwnProp r k && decide (asNumber (getProp r k) ≠ 0)) = none →
        ∀ k, keys.find? (fun k => hasOwnProp r k) = some k → asNumber (getProp r k) = 0) := by
  constructor
  · unfold pickNumber
    rw [pickFirstNonZeroLoop_eq_find, firstPresentLoop_eq_find]
    cases keys.find? (fun k => hasOwnProp r k && decide (asNumber (getProp r k) ≠ 0)) with
    | some k => rfl
    | none =>
      cases keys.find? (fun k => hasOwnProp r k) with
      | some k => rfl
      | none => rfl
  · intro hnone k hk
    have hmem := List.mem_of_find?_eq_some hk
    have hpred := List.find?_some hk
    have h1 := List.find?_eq_none.mp hnone k hmem
    simp only [Bool.and_eq_true, decide_eq_true_eq, not_and] at h1
    by_contra hne
    exact (h1 hpred) hne

/-- Witness for `pickNumber_two_pass_spec` at concrete rows: a later
non-zero candidate wins over an earlier present-but-zero one, and an
all-zero row yields 0. -/
theorem pickNumber_two_pass_spec_witness :
    pickNumber [("a", .vnum (.fin 0)), ("b", .vnum (.fin 7))] ["a", "b"] = 7 ∧
    pickNumber [("a", .vnum (.fin 0))] ["a", "b"] = 0 :=
  ⟨(pickNumber_two_pass_spec _ _).1.trans (by decide),
   (pickNumber_two_pass_spec _ _).1.trans (by decide)⟩

/-- A 2001-character URL — longer than the 2000-character maximum of
`src/unnamed/part_000`'s `/metrics` handler. -/
def longUrl : String := String.mk (List.replicate 2001 'a')

/-- `dropWhile` is the identity on a list none of whose elements
satisfy the predicate. -/
theorem dropWhile_all_neg {p : Char → Bool} :
    ∀ l : List Char, l.all (fun c => !p c) = true → l.dropWhile p = l := by
  intro l h
  induction l with
  | nil => rfl
  | cons c rest ih =>
    simp only [List.all_cons, Bool.and_eq_true, Bool.not_eq_true'] at h
    simp [List.dropWhile_cons, h.1, ih h.2]

/-- JS `trim` is the identity on a whitespace-free string. -/
theorem trimChars_all_not_ws (l : List Char) (h : l.all (fun c => !jsWs c) = true) :
    trimChars l = l := by
  unfold trimChars
  rw [dropWhile_all_neg l h]
  rw [dropWhile_all_neg l.reverse (by simpa using h)]
  exact l.reverse_reverse

/-- The long URL is whitespace-free, hence fixed by `jsTrim`, nonempty
and of length 2001. -/
theorem longUrl_facts :
    jsTrim longUrl = longUrl ∧ longUrl ≠ "" ∧ longUrl.length = 2001 := by
  have hall : (List.replicate 2001 'a').all (fun c => !jsWs c) = true := by
    rw [List.all_eq_true]
    intro c hc
    rw [List.eq_of_mem_replicate hc]
    decide
  refine ⟨?_, ?_, ?_⟩
  · show String.mk (trimChars longUrl.data) = longUrl
    rw [show longUrl.data = List.replicate 2001 'a' from rfl, trimChars_all_not_ws _ hall]
    rfl
  · intro h
    have h3 : longUrl.data.length = 2001 := by
      rw [show longUrl.data = List.replicate 2001 'a' from rfl, List.length_replicate]
    rw [h] at h3
    simp at h3
  · show longUrl.data.length = 2001
    rw [show longUrl.data = List.replicate 2001 'a' from rfl, List.length_replicate]

/-- C9 counterexample: the `/metrics` handler of `src/server.js` has
no maximum-length check — on a 2001-character target URL it reaches
the upstream call (third component `true`) and writes a cache entry,
while the claim says such a request is rejected before any upstream
call with no cache entry created. -/
theorem metrics_length_cex :
    2000 < longUrl.length ∧
    (metricsHandlerSrv (some longUrl) none 0 [] (.ok [])).2.2 = true ∧
    (metricsHandlerSrv (some longUrl) none 0 [] (.ok [])).2.1 ≠ ([] : Cache) := by
  obtain ⟨htrim, hne, hlen⟩ := longUrl_facts
  have hne' : jsTrim ((some longUrl).getD "") ≠ "" := by
    simp only [Option.getD_some, htrim]
    exact hne
  have hrun : metricsHandlerSrv (some longUrl) none 0 [] (.ok []) =
      (.ok (aggregateAllMetricsFromExport [] (jsTrim ((some longUrl).getD "")) none),
       mapSet [] (cacheKeyFull "3" "URL" none none) ⟨0 + TTL_FULL_MS, []⟩, true) := by
    simp only [metricsHandlerSrv]
    rw [if_neg hne']
    rfl
  refine ⟨by rw [hlen]; decide, ?_, ?_⟩
  · rw [hrun]
  · rw [hrun]
    simp [mapSet]

/-- C9 amended: a missing or empty (after trimming) target URL is
rejected with a 400 before the upstream call in both `/metrics`
handlers, and the over-length rejection also precedes the upstream
call — but only in the `src/unnamed/part_000` handler, which is the
only one that has a length check.  In every rejection the cache is
untouched and the upstream call is not reached. -/
theorem malformed_input_rejected_spec (urlQ daysQ : Option String) (now : ℕ) (cache : Cache)
    (up : Except String Payload) :
    (jsTrim (urlQ.getD "") = "" →
      metricsHandlerP0 urlQ daysQ now cache up =
        (.badRequest "Missing query param: url", cache, false) ∧
      metricsHandlerSrv urlQ daysQ now cache up =
        (.badRequest "Missing query param: url", cache, false))
    ∧ (jsTrim (urlQ.getD "") ≠ "" → 2000 < (jsTrim (urlQ.getD "")).length →
      metricsHandlerP0 urlQ daysQ now cache up = (.badRequest "URL too long", cache, false)) := by
  constructor
  · intro h
    exact ⟨by simp [metricsHandlerP0, h], by simp [metricsHandlerSrv, h]⟩
  · intro h1 h2
    simp [metricsHandlerP0, h1, h2]

/-- Witness for `malformed_input_rejected_spec`: a whitespace-only url
parameter is rejected by both handlers, and `longUrl` is rejected by
the part_000 handler. -/
theorem malformed_input_rejected_spec_witness :
    metricsHandlerP0 (some "  ") none 0 [] (.ok []) =
      (.badRequest "Missing query param: url", [], false) ∧
    metricsHandlerSrv (some "  ") none 0 [] (.ok []) =
      (.badRequest "Missing query param: url", [], false) ∧
    metricsHandlerP0 (some longUrl) none 0 [] (.ok []) =
      (.badRequest "URL too long", [], false) :=
  ⟨((malformed_input_rejected_spec (some "  ") none 0 [] (.ok [])).1 (by decide)).1,
   ((malformed_input_rejected_spec (some "  ") none 0 [] (.ok [])).1 (by decide)).2,
   (malformed_input_rejected_spec (some longUrl) none 0 [] (.ok [])).2
     (by simpa using longUrl_facts.1.symm ▸ longUrl_facts.2.1)
     (by
       have h := longUrl_facts
       simp only [Option.getD_some, h.1, h.2.2]
       decide)⟩

/-- C10: Google-Ads fallback order.  Given a nonempty target and a
successful Channel+URL fetch step, the handler aggregates that export
under `isPaidSearchChannel` first; it returns this aggregate (mode
`channel_url_paid_search`) exactly when it has sessions or matched
rows, and then the second fetch is never reached (its invoked flag is
`false`); only otherwise does it perform the Source+Medium+URL fetch
step and return that export's aggregate under `isGoogleCpc` (mode
`source_medium_url_google_cpc`).  The two predicates are thus applied
to distinct exports, and the second upstream query happens only when
the first aggregate is empty. -/
theorem googleads_fallback_spec (urlQ daysQ : Option String) (now : ℕ) (cache : Cache)
    (up1 up2 : Except String Payload) (pay1 pay2 : Payload) (c1 c2 : Cache) (i1 i2 : Bool)
    (ht : jsTrim (urlQ.getD "") ≠ "")
    (h1 : fetchClarityExport (strOr daysQ "3") "Channel" (some "URL") none false now cache up1 =
      (.ok pay1, c1, i1)) :
    ((0 < (aggregateAllMetricsFromExport pay1 (jsTrim (urlQ.getD ""))
          (some fun row => isPaidSearchChannel (getProp row "Channel"))).totalSessionCount ∨
      0 < (aggregateAllMetricsFromExport pay1 (jsTrim (urlQ.getD ""))
          (some fun row => isPaidSearchChannel (getProp row "Channel"))).matchedRows) →
      metricsGoogleAdsHandler urlQ daysQ now cache up1 up2 =
        (.ok ("channel_url_paid_search",
          aggregateAllMetricsFromExport pay1 (jsTrim (urlQ.getD ""))
            (some fun row => isPaidSearchChannel (getProp row "Channel"))), c1, i1, false))
    ∧ (¬(0 < (aggregateAllMetricsFromExport pay1 (jsTrim (urlQ.getD ""))
          (some fun row => isPaidSearchChannel (getProp row "Channel"))).totalSessionCount ∨
        0 < (aggregateAllMetricsFromExport pay1 (jsTrim (urlQ.getD ""))
          (some fun row => isPaidSearchChannel (getProp row "Channel"))).matchedRows) →
      fetchClarityExport (strOr daysQ "3") "Source" (some "Medium") (some "URL") false now c1 up2 =
        (.ok pay2, c2, i2) →
      metricsGoogleAdsHandler urlQ daysQ now cache up1 up2 =
        (.ok ("source_medium_url_google_cpc",
          aggregateAllMetricsFromExport pay2 (jsTrim (urlQ.getD ""))
            (some fun row => isGoogleCpc (getProp row "Source") (getProp row "Medium"))),
         c2, i1, i2)) := by
  constructor
  · intro hc
    simp only [metricsGoogleAdsHandler, h1, if_neg ht, if_pos hc]
  · intro hc h2
    simp only [metricsGoogleAdsHandler, h1, h2, if_neg ht, if_neg hc]

/-- Witness for `googleads_fallback_spec`: empty Channel+URL export
(no matching rows), so the handler falls back to the
Source+Medium+URL export. -/
theorem googleads_fallback_spec_witness :
    metricsGoogleAdsHandler (some "https://x.com/a") none 0 [] (.ok []) (.ok []) =
      (.ok ("source_medium_url_google_cpc",
        aggregateAllMetricsFromExport [] (jsTrim "https://x.com/a")
          (some fun row => isGoogleCpc (getProp row "Source") (getProp row "Medium"))),
       mapSet (mapSet [] (cacheKeyFull "3" "Channel" (some "URL") none) ⟨TTL_FULL_MS, []⟩)
         (cacheKeyFull "3" "Source" (some "Medium") (some "URL")) ⟨TTL_FULL_MS, []⟩,
       true, true) :=
  (googleads_fallback_spec (some "https://x.com/a") none 0 [] (.ok []) (.ok []) [] []
      (mapSet [] (cacheKeyFull "3" "Channel" (some "URL") none) ⟨TTL_FULL_MS, []⟩)
      (mapSet (mapSet [] (cacheKeyFull "3" "Channel" (some "URL") none) ⟨TTL_FULL_MS, []⟩)
        (cacheKeyFull "3" "Source" (some "Medium") (some "URL")) ⟨TTL_FULL_MS, []⟩)
      true true (by decide) rfl).2 (by decide) rfl

/-- `stepEngagement` touches only the time sums: the matched-row count
and the two running average pairs are preserved. -/
theorem stepEngagement_pres (mn : String) (r : Row) (st : AggSt) :
    (stepEngagement mn r st).out.matchedRows = st.out.matchedRows ∧
    (stepEngagement mn r st).pagesPerSessionPctSum = st.pagesPerSessionPctSum ∧
    (stepEngagement mn r st).pagesPerSessionPctN = st.pagesPerSessionPctN ∧
    (stepEngagement mn r st).scrollDepthSum = st.scrollDepthSum ∧
    (stepEngagement mn r st).scrollDepthN = st.scrollDepthN := by
  unfold stepEngagement
  split_ifs <;> exact ⟨rfl, rfl, rfl, rfl, rfl⟩

/-- `stepGroups` touches only the six group sub-records. -/
theorem stepGroups_pres (mn : String) (r : Row) (st : AggSt) :
    (stepGroups mn r st).out.matchedRows = st.out.matchedRows ∧
    (stepGroups mn r st).pagesPerSessionPctSum = st.pagesPerSessionPctSum ∧
    (stepGroups mn r st).pagesPerSessionPctN = st.pagesPerSessionPctN ∧
    (stepGroups mn r st).scrollDepthSum = st.scrollDepthSum ∧
    (stepGroups mn r st).scrollDepthN = st.scrollDepthN := by
  unfold stepGroups
  split_ifs <;> exact ⟨rfl, rfl, rfl, rfl, rfl⟩

/-- Effect of `stepTraffic` on the instrumented fields: it preserves
the matched-row count and the scroll pair, and adds the row's
pages-per-session value to the running pair exactly when the block is
`Traffic` and the coerced value is non-zero. -/
theorem stepTraffic_eq (mn : String) (r : Row) (st : AggSt) :
    (stepTraffic mn r st).out.matchedRows = st.out.matchedRows ∧
    (stepTraffic mn r st).scrollDepthSum = st.scrollDepthSum ∧
    (stepTraffic mn r st).scrollDepthN = st.scrollDepthN ∧
    (stepTraffic mn r st).pagesPerSessionPctSum = st.pagesPerSessionPctSum +
      (if mn = "Traffic" ∧ num (getProp r "pagesPerSessionPercentage") ≠ 0
       then num (getProp r "pagesPerSessionPercentage") else 0) ∧
    (stepTraffic mn r st).pagesPerSessionPctN = st.pagesPerSessionPctN +
      (if mn = "Traffic" ∧ num (getProp r "pagesPerSessionPercentage") ≠ 0 then 1 else 0) := by
  unfold stepTraffic
  by_cases h1 : mn = "Traffic"
  · by_cases h2 : num (getProp r "pagesPerSessionPercentage") ≠ 0
    · simp [h1, h2]
    · simp [h1, h2]
  · simp [h1]

/-- Effect of `stepScrollDepth` on the instrumented fields. -/
theorem stepScrollDepth_eq (mn : String) (r : Row) (st : AggSt) :
    (stepScrollDepth mn r st).out.matchedRows = st.out.matchedRows ∧
    (stepScrollDepth mn r st).pagesPerSessionPctSum = st.pagesPerSessionPctSum ∧
    (stepScrollDepth mn r st).pagesPerSessionPctN = st.pagesPerSessionPctN ∧
    (stepScrollDepth mn r st).scrollDepthSum = st.scrollDepthSum +
      (if mn = "ScrollDepth" ∧ num (getProp r "averageScrollDepth") ≠ 0
       then num (getProp r "averageScrollDepth") else 0) ∧
    (stepScrollDepth mn r st).scrollDepthN = st.scrollDepthN +
      (if mn = "ScrollDepth" ∧ num (getProp r "averageScrollDepth") ≠ 0 then 1 else 0) := by
  unfold stepScrollDepth
  by_cases h1 : mn = "ScrollDepth"
  · by_cases h2 : num (getProp r "averageScrollDepth") ≠ 0
    · simp [h1, h2]
    · simp [h1, h2]
  · simp [h1]

/-- The coerced pages-per-session value of a row. -/
def ppRowVal (r : Row) : ℚ := num (getProp r "pagesPerSessionPercentage")

/-- The coerced average-scroll-depth value of a row. -/
def sdRowVal (r : Row) : ℚ := num (getProp r "averageScrollDepth")

/-- Effect of one full row step on the instrumented fields: the
matched-row count grows by one exactly on a matching row, and the two
average pairs grow exactly on matching rows of the corresponding block
with a non-zero coerced value. -/
theorem aggRowSrv_eq (nt : String) (filt : Option (Row → Bool)) (mn : String)
    (st : AggSt) (r : Row) :
    (aggRowSrv nt filt mn st r).out.matchedRows =
      st.out.matchedRows + (if rowMatches nt filt r then 1 else 0) ∧
    (aggRowSrv nt filt mn st r).pagesPerSessionPctSum = st.pagesPerSessionPctSum +
      (if rowMatches nt filt r ∧ mn = "Traffic" ∧ ppRowVal r ≠ 0
       then ppRowVal r else 0) ∧
    (aggRowSrv nt filt mn st r).pagesPerSessionPctN = st.pagesPerSessionPctN +
      (if rowMatches nt filt r ∧ mn = "Traffic" ∧ ppRowVal r ≠ 0 then 1 else 0) ∧
    (aggRowSrv nt filt mn st r).scrollDepthSum = st.scrollDepthSum +
      (if rowMatches nt filt r ∧ mn = "ScrollDepth" ∧ sdRowVal r ≠ 0
       then sdRowVal r else 0) ∧
    (aggRowSrv nt filt mn st r).scrollDepthN = st.scrollDepthN +
      (if rowMatches nt filt r ∧ mn = "ScrollDepth" ∧ sdRowVal r ≠ 0 then 1 else 0) := by
  by_cases hm : rowMatches nt filt r
  · simp only [aggRowSrv, hm, Bool.not_true, Bool.false_eq_true, if_false]
    refine ⟨?_, ?_, ?_, ?_, ?_⟩
    · rw [(stepGroups_pres _ _ _).1, (stepScrollDepth_eq _ _ _).1,
        (stepEngagement_pres _ _ _).1, (stepTraffic_eq _ _ _).1]
      simp [hm]
    · rw [(stepGroups_pres _ _ _).2.1, (stepScrollDepth_eq _ _ _).2.1,
        (stepEngagement_pres _ _ _).2.1, (stepTraffic_eq _ _ _).2.2.2.1]
      simp [hm, ppRowVal]
    · rw [(stepGroups_pres _ _ _).2.2.1, (stepScrollDepth_eq _ _ _).2.2.1,
        (stepEngagement_pres _ _ _).2.2.1, (stepTraffic_eq _ _ _).2.2.2.2]
      simp [hm, ppRowVal]
    · rw [(stepGroups_pres _ _ _).2.2.2.1, (stepScrollDepth_eq _ _ _).2.2.2.1,
        (stepEngagement_pres _ _ _).2.2.2.1, (stepTraffic_eq _ _ _).2.1]
      simp [hm, sdRowVal]
    · rw [(stepGroups_pres _ _ _).2.2.2.2, (stepScrollDepth_eq _ _ _).2.2.2.2,
        (stepEngagement_pres _ _ _).2.2.2.2, (stepTraffic_eq _ _ _).2.2.1]
      simp [hm, sdRowVal]
  · simp [aggRowSrv, hm]


/-- The pages-per-session values that contribute to the average:
matched rows of `Traffic` blocks whose coerced value is non-zero, in
export order. -/
def ppContribs (nt : String) (filt : Option (Row → Bool)) (blocks : Payload) : List ℚ :=
  (blocks.map (fun b =>
    if b.metricName = "Traffic" then
      (b.information.filter (fun r => rowMatches nt filt r && decide (ppRowVal r ≠ 0))).map ppRowVal
    else [])).join

/-- The scroll-depth values that contribute to the average: matched
rows of `ScrollDepth` blocks whose coerced value is non-zero. -/
def sdContribs (nt : String) (filt : Option (Row → Bool)) (blocks : Payload) : List ℚ :=
  (blocks.map (fun b =>
    if b.metricName = "ScrollDepth" then
      (b.information.filter (fun r => rowMatches nt filt r && decide (sdRowVal r ≠ 0))).map sdRowVal
    else [])).join

/-- Row-loop invariant of the aggregation fold over one block's
rows. -/
theorem foldRows_eq (nt : String) (filt : Option (Row → Bool)) (mn : String)
    (rows : List Row) : ∀ st : AggSt,
    ((rows.foldl (aggRowSrv nt filt mn) st).out.matchedRows =
      st.out.matchedRows + rows.countP (rowMatches nt filt)) ∧
    ((rows.foldl (aggRowSrv nt filt mn) st).pagesPerSessionPctSum = st.pagesPerSessionPctSum +
      (if mn = "Traffic" then
        ((rows.filter (fun r => rowMatches nt filt r && decide (ppRowVal r ≠ 0))).map ppRowVal).sum
       else 0)) ∧
    ((rows.foldl (aggRowSrv nt filt mn) st).pagesPerSessionPctN = st.pagesPerSessionPctN +
      (if mn = "Traffic" then
        ((rows.filter (fun r => rowMatches nt filt r && decide (ppRowVal r ≠ 0))).map ppRowVal).length
       else 0)) ∧
    ((rows.foldl (aggRowSrv nt filt mn) st).scrollDepthSum = st.scrollDepthSum +
      (if mn = "ScrollDepth" then
        ((rows.filter (fun r => rowMatches nt filt r && decide (sdRowVal r ≠ 0))).map sdRowVal).sum
       else 0)) ∧
    ((rows.foldl (aggRowSrv nt filt mn) st).scrollDepthN = st.scrollDepthN +
      (if mn = "ScrollDepth" then
        ((rows.filter (fun r => rowMatches nt filt r && decide (sdRowVal r ≠ 0))).map sdRowVal).length
       else 0)) := by
  induction rows with
  | nil => intro st; simp
  | cons r rs ih =>
    intro st
    obtain ⟨e1, e2, e3, e4, e5⟩ := aggRowSrv_eq nt filt mn st r
    obtain ⟨i1, i2, i3, i4, i5⟩ := ih (aggRowSrv nt filt mn st r)
    refine ⟨?_, ?_, ?_, ?_, ?_⟩
    · rw [List.foldl_cons, i1, e1, List.countP_cons]
      by_cases hm : rowMatches nt filt r <;> simp [hm] <;> omega
    · rw [List.foldl_cons, i2, e2, List.filter_cons]
      by_cases hm : rowMatches nt filt r <;> by_cases hv : ppRowVal r = 0 <;>
        by_cases hmn : mn = "Traffic" <;> simp [hm, hv, hmn] <;> ring
    · rw [List.foldl_cons, i3, e3, List.filter_cons]
      by_cases hm : rowMatches nt filt r <;> by_cases hv : ppRowVal r = 0 <;>
        by_cases hmn : mn = "Traffic" <;> simp [hm, hv, hmn] <;> omega
    · rw [List.foldl_cons, i4, e4, List.filter_cons]
      by_cases hm : rowMatches nt filt r <;> by_cases hv : sdRowVal r = 0 <;>
        by_cases hmn : mn = "ScrollDepth" <;> simp [hm, hv, hmn] <;> ring
    · rw [List.foldl_cons, i5, e5, List.filter_cons]
      by_cases hm : rowMatches nt filt r <;> by_cases hv : sdRowVal r = 0 <;>
        by_cases hmn : mn = "ScrollDepth" <;> simp [hm, hv, hmn] <;> omega

/-- Block-loop invariant of the aggregation fold. -/
theorem foldBlocks_eq (nt : String) (filt : Option (Row → Bool)) (blocks : Payload) :
    ∀ st : AggSt,
    ((blocks.foldl (fun st b => b.information.foldl (aggRowSrv nt filt b.metricName) st)
        st).out.matchedRows =
      st.out.matchedRows + (blocks.map (fun b => b.information.countP (rowMatches nt filt))).sum) ∧
    ((blocks.foldl (fun st b => b.information.foldl (aggRowSrv nt filt b.metricName) st)
        st).pagesPerSessionPctSum = st.pagesPerSessionPctSum + (ppContribs nt filt blocks).sum) ∧
    ((blocks.foldl (fun st b => b.information.foldl (aggRowSrv nt filt b.metricName) st)
        st).pagesPerSessionPctN = st.pagesPerSessionPctN + (ppContribs nt filt blocks).length) ∧
    ((blocks.foldl (fun st b => b.information.foldl (aggRowSrv nt filt b.metricName) st)
        st).scrollDepthSum = st.scrollDepthSum + (sdContribs nt filt blocks).sum) ∧
    ((blocks.foldl (fun st b => b.information.foldl (aggRowSrv nt filt b.metricName) st)
        st).scrollDepthN = st.scrollDepthN + (sdContribs nt filt blocks).length) := by
  induction blocks with
  | nil => intro st; simp [ppContribs, sdContribs]
  | cons b bs ih =>
    intro st
    obtain ⟨r1, r2, r3, r4, r5⟩ := foldRows_eq nt filt b.metricName b.information st
    obtain ⟨i1, i2, i3, i4, i5⟩ :=
      ih (b.information.foldl (aggRowSrv nt filt b.metricName) st)
    refine ⟨?_, ?_, ?_, ?_, ?_⟩
    · rw [List.foldl_cons, i1, r1]
      simp [Nat.add_assoc]
    · rw [List.foldl_cons, i2, r2]
      by_cases hmn : b.metricName = "Traffic" <;>
        simp [ppContribs, hmn, add_assoc]
    · rw [List.foldl_cons, i3, r3]
      by_cases hmn : b.metricName = "Traffic" <;>
        simp [ppContribs, hmn, Nat.add_assoc]
    · rw [List.foldl_cons, i4, r4]
      by_cases hmn : b.metricName = "ScrollDepth" <;>
        simp [sdContribs, hmn, add_assoc]
    · rw [List.foldl_cons, i5, r5]
      by_cases hmn : b.metricName = "ScrollDepth" <;>
        simp [sdContribs, hmn, Nat.add_assoc]

/-- None of the four accumulation steps writes the two derived-average
output fields (those are only set in the finalisation phase). -/
theorem steps_pres_display (mn : String) (r : Row) (st : AggSt) :
    ((stepTraffic mn r st).out.pagesPerSessionPercentage = st.out.pagesPerSessionPercentage ∧
     (stepTraffic mn r st).out.averageScrollDepth = st.out.averageScrollDepth) ∧
    ((stepEngagement mn r st).out.pagesPerSessionPercentage = st.out.pagesPerSessionPercentage ∧
     (stepEngagement mn r st).out.averageScrollDepth = st.out.averageScrollDepth) ∧
    ((stepScrollDepth mn r st).out.pagesPerSessionPercentage = st.out.pagesPerSessionPercentage ∧
     (stepScrollDepth mn r st).out.averageScrollDepth = st.out.averageScrollDepth) ∧
    ((stepGroups mn r st).out.pagesPerSessionPercentage = st.out.pagesPerSessionPercentage ∧
     (stepGroups mn r st).out.averageScrollDepth = st.out.averageScrollDepth) := by
  refine ⟨?_, ?_, ?_, ?_⟩
  · unfold stepTraffic
    by_cases h1 : mn = "Traffic"
    · by_cases h2 : num (getProp r "pagesPerSessionPercentage") ≠ 0 <;> simp [h1, h2]
    · simp [h1]
  · unfold stepEngagement
    split_ifs <;> exact ⟨rfl, rfl⟩
  · unfold stepScrollDepth
    by_cases h1 : mn = "ScrollDepth"
    · by_cases h2 : num (getProp r "averageScrollDepth") ≠ 0 <;> simp [h1, h2]
    · simp [h1]
  · unfold stepGroups
    split_ifs <;> exact ⟨rfl, rfl⟩

/-- The row loop never writes the two derived-average output
fields. -/
theorem aggRowSrv_pres_display (nt : String) (filt : Option (Row → Bool)) (mn : String)
    (st : AggSt) (r : Row) :
    (aggRowSrv nt filt mn st r).out.pagesPerSessionPercentage =
      st.out.pagesPerSessionPercentage ∧
    (aggRowSrv nt filt mn st r).out.averageScrollDepth = st.out.averageScrollDepth := by
  by_cases hm : rowMatches nt filt r
  · simp only [aggRowSrv, hm, Bool.not_true, Bool.false_eq_true, if_false]
    constructor
    · rw [(steps_pres_display _ _ _).2.2.2.1, (steps_pres_display _ _ _).2.2.1.1,
        (steps_pres_display _ _ _).2.1.1, (steps_pres_display _ _ _).1.1]
    · rw [(steps_pres_display _ _ _).2.2.2.2, (steps_pres_display _ _ _).2.2.1.2,
        (steps_pres_display _ _ _).2.1.2, (steps_pres_display _ _ _).1.2]
  · simp [aggRowSrv, hm]

/-- The whole block fold never writes the two derived-average output
fields. -/
theorem foldBlocks_pres_display (nt : String) (filt : Option (Row → Bool)) (blocks : Payload) :
    ∀ st : AggSt,
    (blocks.foldl (fun st b => b.information.foldl (aggRowSrv nt filt b.metricName) st)
        st).out.pagesPerSessionPercentage = st.out.pagesPerSessionPercentage ∧
    (blocks.foldl (fun st b => b.information.foldl (aggRowSrv nt filt b.metricName) st)
        st).out.averageScrollDepth = st.out.averageScrollDepth := by
  have hrows : ∀ (mn : String) (rows : List Row) (st : AggSt),
      (rows.foldl (aggRowSrv nt filt mn) st).out.pagesPerSessionPercentage =
        st.out.pagesPerSessionPercentage ∧
      (rows.foldl (aggRowSrv nt filt mn) st).out.averageScrollDepth =
        st.out.averageScrollDepth := by
    intro mn rows
    induction rows with
    | nil => intro st; exact ⟨rfl, rfl⟩
    | cons r rs ih =>
      intro st
      obtain ⟨p1, p2⟩ := aggRowSrv_pres_display nt filt mn st r
      obtain ⟨q1, q2⟩ := ih (aggRowSrv nt filt mn st r)
      exact ⟨by rw [List.foldl_cons, q1, p1], by rw [List.foldl_cons, q2, p2]⟩
  induction blocks with
  | nil => intro st; exact ⟨rfl, rfl⟩
  | cons b bs ih =>
    intro st
    obtain ⟨p1, p2⟩ := hrows b.metricName b.information st
    obtain ⟨q1, q2⟩ := ih (b.information.foldl (aggRowSrv nt filt b.metricName) st)
    exact ⟨by rw [List.foldl_cons, q1, p1], by rw [List.foldl_cons, q2, p2]⟩

/-- Link between the aggregation result and the final loop state: the
matched-row count is taken as is, and the two averaged outputs are the
rounded means of the running pairs, defaulting to the pre-loop field
value when the pair count is zero. -/
theorem aggregateFinal_fields (exportJson : Payload) (target : String)
    (filt : Option (Row → Bool)) (st : AggSt)
    (hst : exportJson.foldl
      (fun st b => b.information.foldl
        (aggRowSrv (createBaseOutput target).normalizedTarget filt b.metricName) st)
      ⟨createBaseOutput target, 0, 0, 0, 0⟩ = st) :
    (aggregateAllMetricsFromExport exportJson target filt).matchedRows = st.out.matchedRows ∧
    (aggregateAllMetricsFromExport exportJson target filt).pagesPerSessionPercentage =
      (if 0 < st.pagesPerSessionPctN then
        jsRound (st.pagesPerSessionPctSum / (st.pagesPerSessionPctN : ℚ))
       else st.out.pagesPerSessionPercentage) ∧
    (aggregateAllMetricsFromExport exportJson target filt).averageScrollDepth =
      (if 0 < st.scrollDepthN then jsRound (st.scrollDepthSum / (st.scrollDepthN : ℚ))
       else st.out.averageScrollDepth) := by
  simp only [aggregateAllMetricsFromExport]
  rw [hst]
  split_ifs <;> simp

/-- C1: for every export, target URL and optional row predicate, the
`matchedRows` of the aggregated record equals the number of rows
across all blocks that pass the predicate (when supplied) and whose
normalized URL is non-empty and equal to the normalized target key —
independently of the block name, so rows of blocks matching no
accumulation rule are counted too, while rows with an empty normalized
URL never are. -/
theorem aggregate_matchedRows_spec (exportJson : Payload) (target : String)
    (filt : Option (Row → Bool)) :
    (aggregateAllMetricsFromExport exportJson target filt).matchedRows =
      (exportJson.map (fun b => b.information.countP
        (fun r => (filt.getD (fun _ => true)) r
          && (normalizeValForMatch (rowUrlSrv r) != "")
          && (normalizeValForMatch (rowUrlSrv r) == normalizeUrlForMatch target)))).sum := by
  obtain ⟨h1, -, -⟩ := aggregateFinal_fields exportJson target filt _ rfl
  rw [h1, (foldBlocks_eq (createBaseOutput target).normalizedTarget filt exportJson _).1]
  have hpred : (fun r => (filt.getD (fun _ => true)) r
      && (normalizeValForMatch (rowUrlSrv r) != "")
      && (normalizeValForMatch (rowUrlSrv r) == normalizeUrlForMatch target))
      = rowMatches (normalizeUrlForMatch target) filt := by
    funext r
    cases filt <;> rfl
  have hnt : (createBaseOutput target).normalizedTarget = normalizeUrlForMatch target := rfl
  simp only [hpred, hnt]
  simp [createBaseOutput]

/-- C7 counterexample: a matched Traffic row whose coerced
pages-per-session value is the strictly negative −5 does contribute to
the running pair (the code tests truthiness, i.e. non-zero, not
strict positivity), so the final output is −5 — under the claim the
row would not contribute and the output would stay 0. -/
theorem averaging_negative_cex :
    (aggregateAllMetricsFromExport
      [⟨"Traffic", [[("Url", .vstr "https://x.com/p"),
                     ("pagesPerSessionPercentage", .vnum (.fin (-5)))]]⟩]
      "https://x.com/p" none).pagesPerSessionPercentage = -5 := by
  obtain ⟨-, h2, -⟩ := aggregateFinal_fields
    [⟨"Traffic", [[("Url", .vstr "https://x.com/p"),
                   ("pagesPerSessionPercentage", .vnum (.fin (-5)))]]⟩]
    "https://x.com/p" none _ rfl
  rw [h2]
  have hrow : rowMatches (createBaseOutput "https://x.com/p").normalizedTarget none
      [("Url", .vstr "https://x.com/p"), ("pagesPerSessionPercentage", .vnum (.fin (-5)))] =
      true := by decide
  obtain ⟨-, f2, f3, -, -⟩ := foldBlocks_eq (createBaseOutput "https://x.com/p").normalizedTarget
    none
    [⟨"Traffic", [[("Url", .vstr "https://x.com/p"),
                   ("pagesPerSessionPercentage", .vnum (.fin (-5)))]]⟩]
    ⟨createBaseOutput "https://x.com/p", 0, 0, 0, 0⟩
  have hL : ppContribs (createBaseOutput "https://x.com/p").normalizedTarget none
      [⟨"Traffic", [[("Url", .vstr "https://x.com/p"),
                     ("pagesPerSessionPercentage", .vnum (.fin (-5)))]]⟩] = [-5] := by
    decide
  rw [f2, f3, hL]
  simp only [List.sum_cons, List.sum_nil, List.length_cons, List.length_nil]
  norm_num
  show ((⌊(-5 : ℚ) + 1/2⌋ : ℤ) : ℚ) = -5
  rw [show ((-5 : ℚ) + 1/2) = -9/2 by norm_num]
  rw [show ⌊(-9/2 : ℚ)⌋ = -5 by
    rw [Int.floor_eq_iff]
    constructor <;> norm_num]
  norm_num

/-- C7 amended: the two averaged outputs are the rounded mean over
exactly the matched rows whose coerced metric value is **non-zero**
(the code's truthiness test; negative values contribute too, which is
what the counterexample exhibits), with the divisor equal to the count
of those contributing rows — never the total matched row count — and
the output stays 0 when no row contributed. -/
theorem averaging_nonzero_divisor_spec (exportJson : Payload) (target : String)
    (filt : Option (Row → Bool)) :
    ((aggregateAllMetricsFromExport exportJson target filt).pagesPerSessionPercentage =
      if ppContribs (normalizeUrlForMatch target) filt exportJson = [] then 0
      else jsRound ((ppContribs (normalizeUrlForMatch target) filt exportJson).sum /
        ((ppContribs (normalizeUrlForMatch target) filt exportJson).length : ℚ))) ∧
    ((aggregateAllMetricsFromExport exportJson target filt).averageScrollDepth =
      if sdContribs (normalizeUrlForMatch target) filt exportJson = [] then 0
      else jsRound ((sdContribs (normalizeUrlForMatch target) filt exportJson).sum /
        ((sdContribs (normalizeUrlForMatch target) filt exportJson).length : ℚ))) := by
  obtain ⟨-, h2, h3⟩ := aggregateFinal_fields exportJson target filt _ rfl
  obtain ⟨-, f2, f3, f4, f5⟩ := foldBlocks_eq (createBaseOutput target).normalizedTarget filt
    exportJson ⟨createBaseOutput target, 0, 0, 0, 0⟩
  obtain ⟨d1, d2⟩ := foldBlocks_pres_display (createBaseOutput target).normalizedTarget filt
    exportJson ⟨createBaseOutput target, 0, 0, 0, 0⟩
  have hnt : (createBaseOutput target).normalizedTarget = normalizeUrlForMatch target := rfl
  rw [← hnt]
  constructor
  · rw [h2, f2, f3, d1]
    simp only [createBaseOutput]
    by_cases hL : ppContribs (normalizeUrlForMatch target) filt exportJson = []
    · simp [hL]
    · simp [hL, List.length_pos.mpr hL]
  · rw [h3, f4, f5, d2]
    simp only [createBaseOutput]
    by_cases hL : sdContribs (normalizeUrlForMatch target) filt exportJson = []
    · simp [hL]
    · simp [hL, List.length_pos.mpr hL]

/-- `takeWhile` is the identity when every element satisfies the
predicate. -/
theorem takeWhile_all {α : Type} {P : α → Bool} :
    ∀ l : List α, l.all P = true → l.takeWhile P = l := by
  intro l h
  induction l with
  | nil => rfl
  | cons c rest ih =>
    simp only [List.all_cons, Bool.and_eq_true] at h
    simp [List.takeWhile_cons, h.1, ih h.2]

/-- Canonical-shape test for outputs of `normalizeUrlForMatch`: the
string is trim-fixed and either (a) parses as a URL, literally equals
the `https://{host}{path}` recomposition of its parse, and its host
and path are fixed by the host/path canonicalisation steps, or (b)
does not parse and contains no `?`/`#` and no trailing slash.  Outputs
of `normalizeUrlForMatch` escape this shape for example through a
leading `www.www.`-style host, a still-decodable (double-encoded)
path, a decoded trailing-whitespace path, or a fallback result that
kept a trailing slash. -/
def canonFixed (k : String) : Bool :=
  (jsTrim k == k) &&
  (match parseURLCore k.data with
   | some (h, p) =>
     (k == String.mk ("https://".data ++ h ++ p)) &&
     (canonHost h == h) && (canonPath p == p)
   | none =>
     k.data.all (fun c => c ≠ '?') && k.data.all (fun c => c ≠ '#') &&
     !(k.data.getLast? == some '/'))

/-- A string of canonical shape is a fixed point of
`normalizeUrlForMatch`. -/
theorem canonFixed_fixed (k : String) (hc : canonFixed k = true) :
    normalizeUrlForMatch k = k := by
  by_cases hk : k = ""
  · rw [hk]; rfl
  · have hdata : k.data ≠ [] := by
      intro hd
      exact hk (String.ext hd)
    unfold canonFixed at hc
    rw [Bool.and_eq_true] at hc
    obtain ⟨htrimb, hrest⟩ := hc
    have htrim' : trimChars k.data = k.data := by
      have h1 : jsTrim k = k := eq_of_beq htrimb
      have h2 := congrArg String.data h1
      exact h2
    unfold normalizeUrlForMatch
    rw [if_neg hk]
    simp only [htrim']
    rw [if_neg hdata]
    cases hp : parseURLCore k.data with
    | some pair =>
      obtain ⟨h, p⟩ := pair
      rw [hp] at hrest
      simp only [Bool.and_eq_true, beq_iff_eq] at hrest
      obtain ⟨⟨hk2, hch⟩, hcp⟩ := hrest
      show String.mk ("https://".data ++ canonHost h ++ canonPath p) = k
      rw [hch, hcp]
      exact hk2.symm
    | none =>
      rw [hp] at hrest
      simp only [Bool.and_eq_true, Bool.not_eq_true', beq_eq_false_iff_ne] at hrest
      obtain ⟨⟨hq, hh⟩, hsl⟩ := hrest
      show String.mk (stripTrailingSlash (takeUntil '#' (takeUntil '?' k.data))) = k
      unfold takeUntil
      rw [takeWhile_all _ hq, takeWhile_all _ hh]
      unfold stripTrailingSlash
      rw [if_neg hsl]

/-- C3 counterexample: four families of canonical forms that
`normalizeUrlForMatch` does not fix.  Each left-hand input produces
the middle string (so it is in the range of `normalizeUrlForMatch`),
and re-normalizing that output changes it again: a fallback result
that kept one of two trailing slashes; a `www.www.` host losing one
`www.` per pass; a double-encoded path decoding once per pass; and a
decoded trailing space that the second pass trims away. -/
theorem normalize_not_idempotent_cex :
    (normalizeUrlForMatch "x//" = "x/" ∧ normalizeUrlForMatch "x/" = "x") ∧
    (normalizeUrlForMatch "https://www.www.example.com/a" = "https://www.example.com/a" ∧
     normalizeUrlForMatch "https://www.example.com/a" = "https://example.com/a") ∧
    (normalizeUrlForMatch "https://a.com/%2541" = "https://a.com/%41" ∧
     normalizeUrlForMatch "https://a.com/%41" = "https://a.com/A") ∧
    (normalizeUrlForMatch "https://a.com/b%20" = "https://a.com/b " ∧
     normalizeUrlForMatch "https://a.com/b " = "https://a.com/b") := by
  decide

/-- Canonical shape restricted to the modelled fragment of the real
parser: `canonFixed`, and in the parse branch the host is ASCII
letters/digits/`-`/`.`, letter-terminated and punycode-free while the
path is over the conservative escape- and dot-segment-free alphabet —
so the real parser copies the key verbatim exactly as the model does —
and in the fallback branch the key is colon-free, so the real parser
rejects it exactly as the model does. -/
def canonSafe (k : String) : Bool :=
  canonFixed k &&
  (match parseURLCore k.data with
   | some (h, p) =>
     h.all (fun c => asciiAlpha c ∨ asciiDigit c ∨ c = '-' ∨ c = '.') &&
     (match h.getLast? with | some c => asciiAlpha c | none => false) &&
     !(listInfixOf ("xn--".data) (h.map Char.toLower)) &&
     !(listInfixOf ("0x".data) (h.map Char.toLower)) &&
     p.all safePathChar && noDotSeg p
   | none => k.data.all (fun c => c ≠ ':'))

/-- C3 amended: `normalizeUrlForMatch` is a fixed point on every
output of safe canonical shape (`canonSafe`): trim-fixed and either a
parse-exact `https://{host}{path}` recomposition, with host and path
fixed by the canonicalisation steps and inside the modelled fragment
(ASCII letter-terminated punycode-free host, escape- and
dot-segment-free conservative path), or a colon-free unparsable string
free of `?`/`#` and trailing slash.  The counterexample exhibits four
families of outputs that escape this shape and are changed by a second
pass. -/
theorem normalize_idem_on_canon (x : String)
    (h : canonSafe (normalizeUrlForMatch x) = true) :
    normalizeUrlForMatch (normalizeUrlForMatch x) = normalizeUrlForMatch x := by
  have hc : canonFixed (normalizeUrlForMatch x) = true := by
    rw [canonSafe, Bool.and_eq_true] at h
    exact h.1
  exact canonFixed_fixed _ hc

/-- Witness for `normalize_idem_on_canon` at a typical URL. -/
theorem normalize_idem_on_canon_witness :
    normalizeUrlForMatch (normalizeUrlForMatch "https://www.example.com/a/") =
      normalizeUrlForMatch "https://www.example.com/a/" :=
  normalize_idem_on_canon "https://www.example.com/a/" (by decide)

/-- `takeWhile` walks through a prefix whose elements all satisfy the
predicate. -/
theorem takeWhile_append_all {α : Type} {P : α → Bool} :
    ∀ l1 l2 : List α, l1.all P = true → (l1 ++ l2).takeWhile P = l1 ++ l2.takeWhile P := by
  intro l1 l2 h
  induction l1 with
  | nil => rfl
  | cons c rest ih =>
    simp only [List.all_cons, Bool.and_eq_true] at h
    simp [List.takeWhile_cons, h.1, ih h.2]

/-- `splitAtColon` splits at the separating colon when the prefix is
colon-free. -/
theorem splitAtColon_append (sch rest : List Char)
    (h : sch.all (fun c => c ≠ ':') = true) :
    splitAtColon (sch ++ ':' :: rest) = some (sch, rest) := by
  induction sch with
  | nil => simp [splitAtColon]
  | cons c cs ih =>
    simp only [List.all_cons, Bool.and_eq_true, decide_eq_true_eq] at h
    simp [splitAtColon, h.1, ih (by simp [List.all_eq_true] at h ⊢; exact h.2)]

/-- Valid host characters are not URL delimiters. -/
theorem hostChar_not_delim {c : Char} (h : (!forbiddenHostChar c) = true) :
    (c = '/' ∨ c = '?' ∨ c = '#') = False ∧ (c = ':') = False := by
  constructor
  · simp only [eq_iff_iff, iff_false]
    intro hor
    rcases hor with rfl | rfl | rfl <;> simp [forbiddenHostChar] at h
  · simp only [eq_iff_iff, iff_false]
    intro hc
    subst hc
    simp [forbiddenHostChar] at h

/-- Round trip of the URL model on a well-formed recomposition:
`scheme://host` followed by a `/`-led path and an optional
query/fragment tail parses back to exactly that host and path. -/
theorem parse_mkUrl (sch h p q : List Char)
    (hs : schemeOk sch = true) (hsc : ∀ c ∈ sch, c ≠ ':')
    (hh0 : h ≠ []) (hhc : ∀ c ∈ h, forbiddenHostChar c = false)
    (hp0 : p.head? = some '/') (hpc : ∀ c ∈ p, ¬(c = '?' ∨ c = '#'))
    (hq : q = [] ∨ q.head? = some '?' ∨ q.head? = some '#') :
    parseURLCore (sch ++ ':' :: '/' :: '/' :: (h ++ (p ++ q))) = some (h, p) := by
  obtain ⟨p', rfl⟩ : ∃ p', p = '/' :: p' := by
    cases p with
    | nil => simp at hp0
    | cons a l =>
      simp only [List.head?_cons, Option.some_inj] at hp0
      exact ⟨l, by rw [hp0]⟩
  unfold parseURLCore
  rw [splitAtColon_append sch _ (by
    rw [List.all_eq_true]
    intro c hc
    simpa using hsc c hc)]
  simp only [hs, if_true]
  have hauth : (h ++ ('/' :: p' ++ q)).takeWhile (fun c => ¬(c = '/' ∨ c = '?' ∨ c = '#')) = h := by
    rw [takeWhile_append_all h ('/' :: p' ++ q) (by
      rw [List.all_eq_true]
      intro c hc
      have hf := hhc c hc
      have hd := (hostChar_not_delim (by rw [hf]; rfl)).1
      simp [hd])]
    simp [List.takeWhile_cons]
  have hhost : h.takeWhile (fun c => c ≠ ':') = h := by
    apply takeWhile_all
    rw [List.all_eq_true]
    intro c hc
    have hf := hhc c hc
    have hd := (hostChar_not_delim (by rw [hf]; rfl)).2
    simp [hd]
  have hpath : ('/' :: p' ++ q).takeWhile (fun c => ¬(c = '?' ∨ c = '#')) = '/' :: p' := by
    rw [takeWhile_append_all ('/' :: p') q (by
      rw [List.all_eq_true]
      intro c hc
      have := hpc c hc
      simp [this])]
    rcases hq with rfl | hq2 | hq2
    · simp
    · cases q with
      | nil => simp at hq2
      | cons a l =>
        simp only [List.head?_cons, Option.some_inj] at hq2
        subst hq2
        simp [List.takeWhile_cons]
    · cases q with
      | nil => simp at hq2
      | cons a l =>
        simp only [List.head?_cons, Option.some_inj] at hq2
        subst hq2
        simp [List.takeWhile_cons]
  rw [hauth, hhost, List.drop_left, List.drop_length, hpath]
  simp [hh0, List.all_eq_true]
  exact hhc

/-- Recomposition of an absolute URL from scheme, host, `/`-led path
and optional `?`/`#` tail. -/
def mkUrl (sch h p q : String) : String := sch ++ "://" ++ h ++ p ++ q

/-- Well-formed scheme: the URL scheme grammar, colon- and
whitespace-free (any ordinary scheme such as `http`, `https`,
`ftp`). -/
def goodScheme (s : String) : Bool :=
  schemeOk s.data && s.data.all (fun c => c ≠ ':' && !jsWs c)

/-- Well-formed host: nonempty, free of forbidden host characters and
whitespace. -/
def goodHost (h : String) : Bool :=
  !h.data.isEmpty && h.data.all (fun c => !forbiddenHostChar c && !jsWs c)

/-- Well-formed path: starts with `/`, free of `?`, `#` and
whitespace. -/
def goodPath (p : String) : Bool :=
  (p.data.head? == some '/') && p.data.all (fun c => c ≠ '?' && c ≠ '#' && !jsWs c)

/-- Well-formed query/fragment tail: empty, or led by `?` or `#` and
whitespace-free. -/
def goodTail (q : String) : Bool :=
  (q == "") || (((q.data.head? == some '?') || (q.data.head? == some '#')) &&
    q.data.all (fun c => !jsWs c))

/-- Scheme inside the modelled fragment: the URL grammar, whitespace-
and colon-free, and not the `file` scheme (whose host parsing drops
`localhost`). -/
def urlScheme (s : String) : Bool :=
  goodScheme s && !(lowerStr s == "file")

/-- Host inside the modelled fragment: well formed and made of ASCII
letters, digits, `-` and `.` only, ending in a letter and free of
`0x` (so no trailing label is a decimal or hexadecimal IPv4
candidate) and of punycode (`xn--`) labels — a host the real parser
maps to its own lower-casing under special and non-special schemes
alike. -/
def urlHost (h : String) : Bool :=
  goodHost h && h.data.all (fun c => asciiAlpha c ∨ asciiDigit c ∨ c = '-' ∨ c = '.') &&
  (match h.data.getLast? with | some c => asciiAlpha c | none => false) &&
  !(listInfixOf ("xn--".data) ((lowerStr h).data)) &&
  !(listInfixOf ("0x".data) ((lowerStr h).data))

/-- Path inside the modelled fragment: well formed, over the
conservative alphabet, with no dot segments — a path the real parser
copies verbatim into `pathname`. -/
def urlPath (p : String) : Bool :=
  goodPath p && p.data.all safePathChar && noDotSeg p.data

/-- Escaped path inside the modelled fragment: as `urlPath` but also
allowing well-formed single-byte non-dot percent-escapes, which the
real parser copies verbatim and `decodeURI` handles exactly as
`decodeCore` does. -/
def urlPathEsc (p : String) : Bool :=
  goodPath p && p.data.all (fun c => safePathChar c ∨ c = '%') && noDotSeg p.data &&
  escapesOk p.data

/-- Character data of the recomposition. -/
theorem mkUrl_data (sch h p q : String) :
    (mkUrl sch h p q).data = sch.data ++ ':' :: '/' :: '/' :: (h.data ++ (p.data ++ q.data)) := by
  simp [mkUrl, List.append_assoc]

/-- Normal form of `normalizeUrlForMatch` on a well-formed
recomposition: the scheme and tail are discarded; the host and path go
through their canonicalisation steps. -/
theorem normalize_mkUrl (sch h p q : String)
    (hs : goodScheme sch = true) (hh : goodHost h = true)
    (hp : goodPath p = true) (hq : goodTail q = true) :
    normalizeUrlForMatch (mkUrl sch h p q) =
      String.mk ("https://".data ++ canonHost h.data ++ canonPath p.data) := by
  simp only [goodScheme, Bool.and_eq_true] at hs
  obtain ⟨hs1, hs2⟩ := hs
  simp only [goodHost, Bool.and_eq_true, Bool.not_eq_true', List.isEmpty_eq_false] at hh
  obtain ⟨hh1, hh2⟩ := hh
  simp only [goodPath, Bool.and_eq_true, beq_iff_eq] at hp
  obtain ⟨hp1, hp2⟩ := hp
  have hs2' : ∀ c ∈ sch.data, c ≠ ':' ∧ jsWs c = false := by
    rw [List.all_eq_true] at hs2
    intro c hc
    have := hs2 c hc
    simp only [Bool.and_eq_true, decide_eq_true_eq, Bool.not_eq_true'] at this
    exact this
  have hh2' : ∀ c ∈ h.data, forbiddenHostChar c = false ∧ jsWs c = false := by
    rw [List.all_eq_true] at hh2
    intro c hc
    have := hh2 c hc
    simp only [Bool.and_eq_true, Bool.not_eq_true'] at this
    exact this
  have hp2' : ∀ c ∈ p.data, c ≠ '?' ∧ c ≠ '#' ∧ jsWs c = false := by
    rw [List.all_eq_true] at hp2
    intro c hc
    have := hp2 c hc
    simp only [Bool.and_eq_true, decide_eq_true_eq, Bool.not_eq_true'] at this
    exact ⟨this.1.1, this.1.2, this.2⟩
  have hqcase : q.data = [] ∨
      ((q.data.head? = some '?' ∨ q.data.head? = some '#') ∧ ∀ c ∈ q.data, jsWs c = false) := by
    simp only [goodTail, Bool.or_eq_true, Bool.and_eq_true, beq_iff_eq] at hq
    rcases hq with hq | ⟨hq1, hq2⟩
    · left
      rw [hq]
    · right
      refine ⟨by tauto, ?_⟩
      rw [List.all_eq_true] at hq2
      intro c hc
      have := hq2 c hc
      simpa using this
  have hdata := mkUrl_data sch h p q
  have hne0 : sch.data ≠ [] := by
    intro h0
    rw [h0] at hs1
    simp [schemeOk] at hs1
  have hdne : (mkUrl sch h p q).data ≠ [] := by
    rw [hdata]
    intro hcon
    rcases List.append_eq_nil.mp hcon with ⟨-, h2⟩
    simp at h2
  have hne : mkUrl sch h p q ≠ "" := by
    intro he
    exact hdne (by rw [he])
  have hnows : ((mkUrl sch h p q).data).all (fun c => !jsWs c) = true := by
    rw [hdata]
    rw [List.all_eq_true]
    intro c hc
    simp only [List.mem_append, List.mem_cons] at hc
    simp only [Bool.not_eq_true']
    rcases hc with hc | rfl | rfl | rfl | hc
    · exact (hs2' c hc).2
    · rfl
    · rfl
    · rfl
    · rcases hc with hc | hc
      · exact (hh2' c hc).2
      · rcases hc with hc | hc
        · exact (hp2' c hc).2.2
        · rcases hqcase with hq0 | ⟨-, hqw⟩
          · rw [hq0] at hc
            simp at hc
          · exact hqw c hc
  unfold normalizeUrlForMatch
  rw [if_neg hne]
  simp only [trimChars_all_not_ws _ hnows]
  rw [if_neg hdne]
  rw [hdata, parse_mkUrl sch.data h.data p.data q.data hs1
    (fun c hc => (hs2' c hc).1) hh1 (fun c hc => (hh2' c hc).1) hp1
    (fun c hc hor => by
      rcases hor with rfl | rfl
      · exact (hp2' _ hc).1 rfl
      · exact (hp2' _ hc).2.1 rfl)
    (by
      rcases hqcase with hq0 | ⟨hqh, -⟩
      · exact Or.inl hq0
      · exact Or.inr hqh)]

/-- Head equation of `decodeCore` on a non-escape character. -/
theorem decodeCore_cons_ne (c : Char) (rest : List Char) (hc : c ≠ '%') :
    decodeCore (c :: rest) = (fun d => c :: d) <$> decodeCore rest := by
  rw [decodeCore.eq_def]
  simp [hc]

/-- Head equation of `decodeCore` on a full escape sequence. -/
theorem decodeCore_pct (a b : Char) (rest2 : List Char)
    (ha : hexDigit a = true) (hb : hexDigit b = true) :
    decodeCore ('%' :: a :: b :: rest2) =
      (if 0x80 ≤ hexVal a * 16 + hexVal b then none
       else if uriReserved (Char.ofNat (hexVal a * 16 + hexVal b)) then
         (fun d => '%' :: a :: b :: d) <$> decodeCore rest2
       else (fun d => Char.ofNat (hexVal a * 16 + hexVal b) :: d) <$> decodeCore rest2) := by
  rw [decodeCore.eq_def]
  simp [ha, hb]

/-- Head equation of `decodeCore` on a malformed escape sequence. -/
theorem decodeCore_pct_bad (a b : Char) (rest2 : List Char)
    (hab : ¬(hexDigit a = true ∧ hexDigit b = true)) :
    decodeCore ('%' :: a :: b :: rest2) = none := by
  rw [decodeCore.eq_def]
  simp [hab]

/-- `decodeURI` is the identity on percent-free strings. -/
theorem decode_nofree : ∀ l : List Char, (∀ c ∈ l, c ≠ '%') → decodeCore l = some l := by
  intro l
  induction l with
  | nil => intro; rfl
  | cons c rest ih =>
    intro hcl
    have hc : c ≠ '%' := hcl c (by simp)
    rw [decodeCore_cons_ne c rest hc, ih (fun d hd => hcl d (by simp [hd]))]
    rfl

/-- Appending a final slash commutes with `decodeURI` (a slash is
never part of an escape sequence and is kept verbatim). -/
theorem decodeCore_append_slash (l : List Char) :
    decodeCore (l ++ ['/']) = (decodeCore l).map (fun d => d ++ ['/']) := by
  induction l using decodeCore.induct with
  | case1 => rfl
  | case2 a b rest2 hab v hle =>
    rw [List.cons_append, List.cons_append, List.cons_append,
      decodeCore_pct a b (rest2 ++ ['/']) hab.1 hab.2, decodeCore_pct a b rest2 hab.1 hab.2]
    simp [hle]
  | case3 a b rest2 hab v hle hres ih =>
    rw [List.cons_append, List.cons_append, List.cons_append,
      decodeCore_pct a b (rest2 ++ ['/']) hab.1 hab.2, decodeCore_pct a b rest2 hab.1 hab.2]
    simp only [hle, if_neg, hres, if_true, ih, if_false]
    cases decodeCore rest2 <;> simp [hle, hres]
  | case4 a b rest2 hab v hle hres ih =>
    rw [List.cons_append, List.cons_append, List.cons_append,
      decodeCore_pct a b (rest2 ++ ['/']) hab.1 hab.2, decodeCore_pct a b rest2 hab.1 hab.2]
    simp only [hle, if_neg, hres, if_true, ih, if_false]
    cases decodeCore rest2 <;> simp [hle, hres]
  | case5 a b rest2 hab =>
    rw [List.cons_append, List.cons_append, List.cons_append,
      decodeCore_pct_bad a b (rest2 ++ ['/']) hab, decodeCore_pct_bad a b rest2 hab]
    rfl
  | case6 rest hshort =>
    cases rest with
    | nil => rfl
    | cons x xs =>
      cases xs with
      | nil =>
        have : ¬(hexDigit x = true ∧ hexDigit '/' = true) := by
          intro hcon
          exact absurd hcon.2 (by decide)
        rw [show ('%' :: [x]) ++ ['/'] = '%' :: x :: '/' :: [] by rfl,
          decodeCore_pct_bad x '/' [] this]
        rfl
      | cons y ys => exact absurd rfl (hshort x y ys)
  | case7 c rest hc ih =>
    rw [List.cons_append, decodeCore_cons_ne c (rest ++ ['/']) hc, decodeCore_cons_ne c rest hc,
      ih]
    cases decodeCore rest <;> simp

/-- `decodeURI` maps nonempty inputs to nonempty outputs. -/
theorem decode_ne_nil : ∀ l d : List Char, decodeCore l = some d → l ≠ [] → d ≠ [] := by
  intro l
  induction l using decodeCore.induct with
  | case1 =>
    intro d _ hl
    exact absurd rfl hl
  | case2 a b rest2 hab v hle =>
    intro d h _
    rw [decodeCore_pct a b rest2 hab.1 hab.2, if_pos hle] at h
    exact absurd h (by simp)
  | case3 a b rest2 hab v hle hres ih =>
    intro d h _
    rw [decodeCore_pct a b rest2 hab.1 hab.2, if_neg hle, if_pos hres] at h
    cases hdc : decodeCore rest2 with
    | none => rw [hdc] at h; exact absurd h (by simp)
    | some d2 =>
      rw [hdc] at h
      obtain rfl : '%' :: a :: b :: d2 = d := by simpa using h
      simp
  | case4 a b rest2 hab v hle hres ih =>
    intro d h _
    rw [decodeCore_pct a b rest2 hab.1 hab.2, if_neg hle, if_neg hres] at h
    cases hdc : decodeCore rest2 with
    | none => rw [hdc] at h; exact absurd h (by simp)
    | some d2 =>
      rw [hdc] at h
      obtain rfl : Char.ofNat (hexVal a * 16 + hexVal b) :: d2 = d := by simpa using h
      simp
  | case5 a b rest2 hab =>
    intro d h _
    rw [decodeCore_pct_bad a b rest2 hab] at h
    exact absurd h (by simp)
  | case6 rest hshort =>
    intro d h _
    cases rest with
    | nil => exact absurd h (by simp [decodeCore.eq_def])
    | cons x xs =>
      cases xs with
      | nil =>
        by_cases hx : hexDigit x = true ∧ hexDigit '/' = true
        · exact absurd hx.2 (by decide)
        · rw [show ('%' :: [x] : List Char) = '%' :: x :: [] from rfl] at h
          rw [decodeCore.eq_def] at h
          simp at h
      | cons y ys => exact absurd rfl (hshort x y ys)
  | case7 c rest hc ih =>
    intro d h _
    rw [decodeCore_cons_ne c rest hc] at h
    cases hdc : decodeCore rest with
    | none => rw [hdc] at h; exact absurd h (by simp)
    | some d2 =>
      rw [hdc] at h
      obtain rfl : c :: d2 = d := by simpa using h
      simp

/-- A decoded string can end in `/` only when its source did: `/` is
reserved, so it is never produced by decoding an escape. -/
theorem decode_last_slash : ∀ l d : List Char, decodeCore l = some d →
    d.getLast? = some '/' → l.getLast? = some '/' := by
  intro l
  induction l using decodeCore.induct with
  | case1 =>
    intro d h hd
    obtain rfl : ([] : List Char) = d := by simpa [decodeCore] using h
    simp at hd
  | case2 a b rest2 hab v hle =>
    intro d h _
    rw [decodeCore_pct a b rest2 hab.1 hab.2, if_pos hle] at h
    exact absurd h (by simp)
  | case3 a b rest2 hab v hle hres ih =>
    intro d h hd
    rw [decodeCore_pct a b rest2 hab.1 hab.2, if_neg hle, if_pos hres] at h
    cases hdc : decodeCore rest2 with
    | none => rw [hdc] at h; exact absurd h (by simp)
    | some d2 =>
      rw [hdc] at h
      obtain rfl : '%' :: a :: b :: d2 = d := by simpa using h
      by_cases hd2 : d2 = []
      · subst hd2
        simp only [List.getLast?] at hd
        have hb : b = '/' := by simpa using hd
        exact absurd (hb ▸ hab.2) (by decide)
      · have hr2 : rest2 ≠ [] := by
          intro h0
          subst h0
          obtain rfl : ([] : List Char) = d2 := by simpa [decodeCore] using hdc
          exact hd2 rfl
        have hlast : d2.getLast? = some '/' := by
          rw [show ('%' :: a :: b :: d2 : List Char) = ['%', a, b] ++ d2 from rfl,
            List.getLast?_append_of_ne_nil _ hd2] at hd
          exact hd
        rw [show ('%' :: a :: b :: rest2 : List Char) = ['%', a, b] ++ rest2 from rfl,
          List.getLast?_append_of_ne_nil _ hr2]
        exact ih d2 hdc hlast
  | case4 a b rest2 hab v hle hres ih =>
    intro d h hd
    rw [decodeCore_pct a b rest2 hab.1 hab.2, if_neg hle, if_neg hres] at h
    cases hdc : decodeCore rest2 with
    | none => rw [hdc] at h; exact absurd h (by simp)
    | some d2 =>
      rw [hdc] at h
      obtain rfl : Char.ofNat (hexVal a * 16 + hexVal b) :: d2 = d := by simpa using h
      by_cases hd2 : d2 = []
      · subst hd2
        simp only [List.getLast?] at hd
        have hb : Char.ofNat (hexVal a * 16 + hexVal b) = '/' := by simpa using hd
        rw [hb] at hres
        exact absurd (by decide : uriReserved '/' = true) hres
      · have hr2 : rest2 ≠ [] := by
          intro h0
          subst h0
          obtain rfl : ([] : List Char) = d2 := by simpa [decodeCore] using hdc
          exact hd2 rfl
        have hlast : d2.getLast? = some '/' := by
          rw [show (Char.ofNat (hexVal a * 16 + hexVal b) :: d2 : List Char) =
            [Char.ofNat (hexVal a * 16 + hexVal b)] ++ d2 from rfl,
            List.getLast?_append_of_ne_nil _ hd2] at hd
          exact hd
        rw [show ('%' :: a :: b :: rest2 : List Char) = ['%', a, b] ++ rest2 from rfl,
          List.getLast?_append_of_ne_nil _ hr2]
        exact ih d2 hdc hlast
  | case5 a b rest2 hab =>
    intro d h _
    rw [decodeCore_pct_bad a b rest2 hab] at h
    exact absurd h (by simp)
  | case6 rest hshort =>
    intro d h _
    cases rest with
    | nil => exact absurd h (by simp [decodeCore.eq_def])
    | cons x xs =>
      cases xs with
      | nil =>
        by_cases hx : hexDigit x = true ∧ hexDigit '/' = true
        · exact absurd hx.2 (by decide)
        · rw [show ('%' :: [x] : List Char) = '%' :: x :: [] from rfl] at h
          rw [decodeCore.eq_def] at h
          simp at h
      | cons y ys => exact absurd rfl (hshort x y ys)
  | case7 c rest hc ih =>
    intro d h hd
    rw [decodeCore_cons_ne c rest hc] at h
    cases hdc : decodeCore rest with
    | none => rw [hdc] at h; exact absurd h (by simp)
    | some d2 =>
      rw [hdc] at h
      obtain rfl : c :: d2 = d := by simpa using h
      by_cases hd2 : d2 = []
      · subst hd2
        have hr : rest = [] := by
          by_contra hr0
          exact decode_ne_nil rest [] hdc hr0 rfl
        subst hr
        simp only [List.getLast?] at hd ⊢
        exact hd
      · have hr2 : rest ≠ [] := by
          intro h0
          subst h0
          obtain rfl : ([] : List Char) = d2 := by simpa [decodeCore] using hdc
          exact hd2 rfl
        have hlast : d2.getLast? = some '/' := by
          rw [show (c :: d2 : List Char) = [c] ++ d2 from rfl,
            List.getLast?_append_of_ne_nil _ hd2] at hd
          exact hd
        rw [show (c :: rest : List Char) = [c] ++ rest from rfl,
          List.getLast?_append_of_ne_nil _ hr2]
        exact ih d2 hdc hlast

/-- `decodeD` (decode with fallback) commutes with a final slash. -/
theorem decodeD_append_slash (l : List Char) : decodeD (l ++ ['/']) = decodeD l ++ ['/'] := by
  unfold decodeD
  rw [decodeCore_append_slash]
  cases decodeCore l <;> simp

/-- `decodeD` preserves nonemptiness. -/
theorem decodeD_ne_nil (l : List Char) (hl : l ≠ []) : decodeD l ≠ [] := by
  unfold decodeD
  cases hdc : decodeCore l with
  | none => exact hl
  | some d => exact decode_ne_nil l d hdc hl

/-- `decodeD` creates no new trailing slash. -/
theorem decodeD_last_slash (l : List Char) (h : (decodeD l).getLast? = some '/') :
    l.getLast? = some '/' := by
  unfold decodeD at h
  cases hdc : decodeCore l with
  | none => rw [hdc] at h; exact h
  | some d => rw [hdc] at h; exact decode_last_slash l d hdc h

/-- `canonPath` on a nonempty raw path. -/
theorem canonPath_of_ne_nil (X : List Char) (hX : X ≠ []) :
    canonPath X = if 1 < (decodeD X).length ∧ (decodeD X).getLast? = some '/'
      then (decodeD X).dropLast else decodeD X := by
  unfold canonPath
  simp [hX]

/-- `canonPath` is plain decoding when the raw path has no trailing
slash. -/
theorem canonPath_noslash (X : List Char) (hX : X ≠ []) (hls : X.getLast? ≠ some '/') :
    canonPath X = decodeD X := by
  rw [canonPath_of_ne_nil X hX, if_neg]
  intro hcon
  exact hls (decodeD_last_slash X hcon.2)

/-- Adding one trailing slash to a slash-free path does not change its
canonical form. -/
theorem canonPath_append_slash (X : List Char) (hX : X ≠ []) (hls : X.getLast? ≠ some '/') :
    canonPath (X ++ ['/']) = canonPath X := by
  rw [canonPath_of_ne_nil _ (by simp), decodeD_append_slash, canonPath_noslash X hX hls,
    if_pos]
  · exact List.dropLast_concat
  · constructor
    · have h1 := decodeD_ne_nil X hX
      have h2 : 0 < (decodeD X).length := List.length_pos.mpr h1
      simp only [List.length_append, List.length_cons, List.length_nil]
      omega
    · exact List.getLast?_concat _

/-- `toLowerCase` maps only `/` to `/`: the slash is outside the
upper-case ASCII range that lower-casing moves. -/
theorem toLower_eq_slash {c : Char} (h : c.toLower = '/') : c = '/' := by
  by_cases hc : 65 ≤ c.toNat ∧ c.toNat ≤ 90
  · exfalso
    have hdef : c.toLower = Char.ofNat (c.toNat + 32) := by
      simp only [Char.toLower]
      rw [if_pos ⟨hc.1, hc.2⟩]
    rw [hdef] at h
    obtain ⟨h1, h2⟩ := hc
    set n := c.toNat with hn
    interval_cases n <;> exact absurd h (by decide)
  · have hdef : c.toLower = c := by
      simp only [Char.toLower]
      rw [if_neg]
      intro hcon
      exact hc ⟨hcon.1, hcon.2⟩
    rw [hdef] at h
    exact h

/-- Host canonicalisation removes one freshly prepended `www.` label
when the lower-cased host does not already start with one. -/
theorem canonHost_www (h : List Char)
    (hnp : ¬ (("www.".data).isPrefixOf (h.map Char.toLower) = true)) :
    canonHost ("www.".data ++ h) = canonHost h := by
  unfold canonHost stripWww
  rw [List.map_append, show ("www.".data).map Char.toLower = "www.".data by decide]
  rw [if_pos (by rw [List.isPrefixOf_iff_prefix]; exact List.prefix_append _ _)]
  rw [if_neg hnp]
  simpa using List.drop_left "www.".data (h.map Char.toLower)

/-- `canonPath` depends on a nonempty raw path only through its
decoding. -/
theorem canonPath_congr_decode (p1 p2 : List Char) (h1 : p1 ≠ []) (h2 : p2 ≠ [])
    (hd : decodeD p1 = decodeD p2) : canonPath p1 = canonPath p2 := by
  rw [canonPath_of_ne_nil p1 h1, canonPath_of_ne_nil p2 h2, hd]

/-- On a percent-free raw path, `canonPath` is just the trailing-slash
strip. -/
theorem canonPath_nofree (p : List Char) (hne : p ≠ []) (hpc : ∀ c ∈ p, c ≠ '%') :
    canonPath p = if 1 < p.length ∧ p.getLast? = some '/' then p.dropLast else p := by
  have hd : decodeD p = p := by
    unfold decodeD
    rw [decode_nofree p hpc]
  rw [canonPath_of_ne_nil p hne, hd]

/-- The trailing-slash strip keeps two distinct case-equivalent paths
distinct: lower-casing preserves length and the terminal slash. -/
theorem strip_case_neq (p1 p2 : List Char) (hne : p1 ≠ p2)
    (hmap : p1.map Char.toLower = p2.map Char.toLower) :
    (if 1 < p1.length ∧ p1.getLast? = some '/' then p1.dropLast else p1) ≠
    (if 1 < p2.length ∧ p2.getLast? = some '/' then p2.dropLast else p2) := by
  have hlen : p1.length = p2.length := by
    have := congrArg List.length hmap
    simpa using this
  have hlast : p1.getLast? = some '/' ↔ p2.getLast? = some '/' := by
    have hm := congrArg List.getLast? hmap
    rw [List.getLast?_map, List.getLast?_map] at hm
    constructor
    · intro hl
      rw [hl] at hm
      cases hl2 : p2.getLast? with
      | none => rw [hl2] at hm; simp at hm
      | some c =>
        rw [hl2] at hm
        have hcl : c.toLower = '/' := by
          have : ('/' : Char).toLower = c.toLower := by simpa using hm
          rw [← this]
          decide
        rw [toLower_eq_slash hcl]
    · intro hl
      rw [hl] at hm
      cases hl1 : p1.getLast? with
      | none => rw [hl1] at hm; simp at hm
      | some c =>
        rw [hl1] at hm
        have hcl : c.toLower = '/' := by
          have : c.toLower = ('/' : Char).toLower := by simpa using hm
          rw [this]
          decide
        rw [toLower_eq_slash hcl]
  by_cases hc1 : 1 < p1.length ∧ p1.getLast? = some '/'
  · have hc2 : 1 < p2.length ∧ p2.getLast? = some '/' :=
      ⟨by rw [← hlen]; exact hc1.1, hlast.mp hc1.2⟩
    rw [if_pos hc1, if_pos hc2]
    intro hdl
    obtain ⟨l1, rfl⟩ := List.getLast?_eq_some_iff.mp hc1.2
    obtain ⟨l2, rfl⟩ := List.getLast?_eq_some_iff.mp hc2.2
    rw [List.dropLast_concat, List.dropLast_concat] at hdl
    exact hne (by rw [hdl])
  · have hc2 : ¬(1 < p2.length ∧ p2.getLast? = some '/') := by
      intro hcon
      exact hc1 ⟨by rw [hlen]; exact hcon.1, hlast.mpr hcon.2⟩
    rw [if_neg hc1, if_neg hc2]
    exact hne

/-- A safe path character is not a percent sign. -/
theorem safePathChar_no_pct {c : Char} (h : safePathChar c = true) : c ≠ '%' := by
  intro hc
  subst hc
  exact absurd h (by decide)

/-- C2 counterexample: three clauses of the claim fail.  Prepending
`www.` to a host that already starts with `www.` changes the key (the
code strips only one label); a percent-encoded slash (`%2F`) is not
identified with a literal slash (`decodeURI` keeps reserved escapes);
and the inputs `/x%4a` and `/x%4A` differ only in letter case yet get
the same key (hex digits in escapes are case-insensitive). -/
theorem normalize_variants_cex :
    normalizeUrlForMatch "https://www.www.example.com/a" ≠
      normalizeUrlForMatch "https://www.example.com/a" ∧
    normalizeUrlForMatch "https://example.com/a%2Fb" ≠
      normalizeUrlForMatch "https://example.com/a/b" ∧
    ("https://example.com/x%4a" ≠ "https://example.com/x%4A" ∧
     ("https://example.com/x%4a".data).map Char.toLower =
       ("https://example.com/x%4A".data).map Char.toLower ∧
     normalizeUrlForMatch "https://example.com/x%4a" =
       normalizeUrlForMatch "https://example.com/x%4A") := by
  refine ⟨by decide, by decide, by decide, by decide, by decide⟩

/-- C2 amended: over recompositions `scheme://host{path}{tail}` inside
the modelled fragment — scheme by the URL grammar and not `file`
(`urlScheme`), ASCII letter-terminated punycode-free host (`urlHost`),
dot-segment-free path over the conservative alphabet (`urlPath`, with
single-byte escapes `urlPathEsc` in the decoding clause), empty or
`?`/`#`-led whitespace-free tail (`goodTail`) — `normalizeUrlForMatch`
identifies the claim's three concrete variant URLs with
`normalize("https://example.com/a")`; is invariant under changing the
scheme and the query/fragment tail; is invariant under prepending
`www.` to a host not already starting (lower-cased) with `www.`, and
under appending one trailing slash to a path that does not already end
in one; identifies two paths with identical `decodeURI` images; and
separates two distinct percent-free paths that differ only in letter
case. -/
theorem normalize_variants_spec (sch sch2 h p q q2 : String)
    (hsu : urlScheme sch = true) (hsu2 : urlScheme sch2 = true)
    (hhu : urlHost h = true) (hpu : urlPath p = true)
    (hq : goodTail q = true) (hq2 : goodTail q2 = true) :
    (normalizeUrlForMatch "https://example.com/a?gclid=123" =
       normalizeUrlForMatch "https://example.com/a" ∧
     normalizeUrlForMatch "https://www.example.com/a/" =
       normalizeUrlForMatch "https://example.com/a" ∧
     normalizeUrlForMatch "http://EXAMPLE.com/a" =
       normalizeUrlForMatch "https://example.com/a") ∧
    normalizeUrlForMatch (mkUrl sch2 h p q2) = normalizeUrlForMatch (mkUrl sch h p q) ∧
    (¬ (("www.".data).isPrefixOf (h.data.map Char.toLower) = true) →
      normalizeUrlForMatch (mkUrl sch ("www." ++ h) p q) =
        normalizeUrlForMatch (mkUrl sch h p q)) ∧
    (p.data.getLast? ≠ some '/' →
      normalizeUrlForMatch (mkUrl sch h (p ++ "/") q) =
        normalizeUrlForMatch (mkUrl sch h p q)) ∧
    (∀ p2 : String, urlPathEsc p2 = true → decodeD p2.data = decodeD p.data →
      normalizeUrlForMatch (mkUrl sch h p2 q) = normalizeUrlForMatch (mkUrl sch h p q)) ∧
    (∀ p2 : String, urlPath p2 = true →
      p.data.map Char.toLower = p2.data.map Char.toLower → p ≠ p2 →
      normalizeUrlForMatch (mkUrl sch h p q) ≠ normalizeUrlForMatch (mkUrl sch2 h p2 q2)) := by
  have hs : goodScheme sch = true := by
    rw [urlScheme, Bool.and_eq_true] at hsu
    exact hsu.1
  have hs2 : goodScheme sch2 = true := by
    rw [urlScheme, Bool.and_eq_true] at hsu2
    exact hsu2.1
  have hh : goodHost h = true := by
    simp only [urlHost, Bool.and_eq_true] at hhu
    exact hhu.1.1.1.1
  have hp : goodPath p = true := by
    rw [urlPath, Bool.and_eq_true, Bool.and_eq_true] at hpu
    exact hpu.1.1
  have hpsafe : ∀ c ∈ p.data, safePathChar c = true := by
    rw [urlPath, Bool.and_eq_true, Bool.and_eq_true] at hpu
    exact List.all_eq_true.mp hpu.1.2
  have hpd : p.data ≠ [] := by
    intro h0
    simp only [goodPath, Bool.and_eq_true, beq_iff_eq] at hp
    rw [h0] at hp
    simp at hp
  refine ⟨⟨by decide, by decide, by decide⟩, ?_, ?_, ?_, ?_, ?_⟩
  · rw [normalize_mkUrl sch2 h p q2 hs2 hh hp hq2, normalize_mkUrl sch h p q hs hh hp hq]
  · intro hnp
    have hhw : goodHost ("www." ++ h) = true := by
      simp only [goodHost, Bool.and_eq_true, Bool.not_eq_true', List.isEmpty_eq_false] at hh ⊢
      rw [show ("www." ++ h).data = "www.".data ++ h.data from rfl]
      refine ⟨by simp, ?_⟩
      rw [List.all_append]
      rw [Bool.and_eq_true]
      exact ⟨by decide, hh.2⟩
    rw [normalize_mkUrl sch ("www." ++ h) p q hs hhw hp hq,
      normalize_mkUrl sch h p q hs hh hp hq,
      show ("www." ++ h).data = "www.".data ++ h.data from rfl,
      canonHost_www h.data hnp]
  · intro hls
    have hpw : goodPath (p ++ "/") = true := by
      simp only [goodPath, Bool.and_eq_true, beq_iff_eq] at hp ⊢
      rw [show (p ++ "/").data = p.data ++ ['/'] from rfl]
      obtain ⟨c0, rest, hcr⟩ : ∃ c0 rest, p.data = c0 :: rest := by
        cases hd : p.data with
        | nil => exact absurd hd hpd
        | cons a l => exact ⟨a, l, rfl⟩
      constructor
      · rw [hcr]
        rw [hcr] at hp
        simpa using hp.1
      · rw [List.all_append]
        rw [Bool.and_eq_true]
        exact ⟨hp.2, by decide⟩
    rw [normalize_mkUrl sch h (p ++ "/") q hs hh hpw hq,
      normalize_mkUrl sch h p q hs hh hp hq,
      show (p ++ "/").data = p.data ++ ['/'] from rfl,
      canonPath_append_slash p.data hpd hls]
  · intro p2 hp2u hd
    have hp2 : goodPath p2 = true := by
      rw [urlPathEsc, Bool.and_eq_true, Bool.and_eq_true, Bool.and_eq_true] at hp2u
      exact hp2u.1.1.1
    have hp2d : p2.data ≠ [] := by
      intro h0
      simp only [goodPath, Bool.and_eq_true, beq_iff_eq] at hp2
      rw [h0] at hp2
      simp at hp2
    rw [normalize_mkUrl sch h p2 q hs hh hp2 hq,
      normalize_mkUrl sch h p q hs hh hp hq,
      canonPath_congr_decode p2.data p.data hp2d hpd hd]
  · intro p2 hp2u hmap hne heq
    have hp2 : goodPath p2 = true := by
      rw [urlPath, Bool.and_eq_true, Bool.and_eq_true] at hp2u
      exact hp2u.1.1
    have hpc : ∀ c ∈ p.data, c ≠ '%' :=
      fun c hc => safePathChar_no_pct (hpsafe c hc)
    have hpc2 : ∀ c ∈ p2.data, c ≠ '%' := by
      rw [urlPath, Bool.and_eq_true, Bool.and_eq_true] at hp2u
      intro c hc
      exact safePathChar_no_pct (List.all_eq_true.mp hp2u.1.2 c hc)
    have hp2d : p2.data ≠ [] := by
      intro h0
      simp only [goodPath, Bool.and_eq_true, beq_iff_eq] at hp2
      rw [h0] at hp2
      simp at hp2
    rw [normalize_mkUrl sch h p q hs hh hp hq,
      normalize_mkUrl sch2 h p2 q2 hs2 hh hp2 hq2] at heq
    have hdata := congrArg String.data heq
    simp only [List.append_assoc] at hdata
    have hcanon : canonPath p.data = canonPath p2.data := by
      have := List.append_cancel_left hdata
      exact List.append_cancel_left this
    rw [canonPath_nofree p.data hpd hpc, canonPath_nofree p2.data hp2d hpc2] at hcanon
    exact strip_case_neq p.data p2.data
      (fun h0 => hne (by
        apply String.ext
        exact h0)) hmap hcanon

/-- Witness for `normalize_variants_spec`: the hypotheses hold at
`http` / `https`, host `Example.com`, path `/a`, tail `?gclid=123`,
and scheme and tail changes leave the key unchanged there. -/
theorem normalize_variants_spec_witness :
    urlScheme "http" = true ∧ urlScheme "https" = true ∧
    urlHost "Example.com" = true ∧ urlPath "/a" = true ∧
    goodTail "?gclid=123" = true ∧ goodTail "" = true ∧
    normalizeUrlForMatch (mkUrl "https" "Example.com" "/a" "") =
      normalizeUrlForMatch (mkUrl "http" "Example.com" "/a" "?gclid=123") :=
  ⟨by decide, by decide, by decide, by decide, by decide, by decide,
   (normalize_variants_spec "http" "https" "Example.com" "/a" "?gclid=123" ""
      (by decide) (by decide) (by decide) (by decide) (by decide) (by decide)).2.1⟩
